import Mathlib

set_option linter.unusedVariables false

/-!
A verification development for the edifact-rs EDIFACT decoder: a shallow
embedding of its lexical parser (UNA service-string advice, data elements,
composites, segments) and of its MIG structural matcher, together with
theorems checking the documented behaviour of the embedded code.

Conventions: Rust `Vec` becomes `List`, Rust `String` becomes `String`
(values are compared and measured per character), `usize`/`u64` become `Nat`,
the `i32` source positions become `Int`, and `Result<T, E>` becomes
`Except E T`.  The parser combinators of the `combine` crate are embedded as
explicit functions from a list of input characters to an optional
(result, position, rest) triple, where `none` models a parse failure.  The
`escaped(...)` combinator wrapped in `recognize(...)` yields the raw consumed
range, escape characters included, and the embedding mirrors that behaviour
character by character.
-/

namespace Edifact

/-- `Either<L, R>` from `src/mig/either.rs`. -/
inductive Either (L R : Type) where
  | Left (l : L)
  | Right (r : R)
deriving Repr, DecidableEq

namespace value

/-- `Position` from `src/mig/decode/parser/value.rs`: a (line, column) pair
isomorphic to combine's `SourcePosition` (both fields are `i32`). -/
structure Position where
  line : Int
  column : Int
deriving Repr, DecidableEq

/-- How combine's `SourcePosition` advances over one consumed character:
a newline starts the next line at column 1, anything else moves one column. -/
def Position.next (p : Position) (c : Char) : Position :=
  if c = '\n' then { line := p.line + 1, column := 1 }
  else { line := p.line, column := p.column + 1 }

/-- `UNA` from `src/mig/decode/parser/value.rs`: the six service characters. -/
structure UNA where
  component_sep : Char
  element_sep : Char
  decimal_char : Char
  escape : Char
  reserved : Char
  segment_sep : Char
deriving Repr, DecidableEq

/-- `UNA::default`. -/
def UNA.default : UNA :=
  { component_sep := ':'
    element_sep := '+'
    decimal_char := '.'
    escape := '?'
    reserved := ' '
    segment_sep := '\'' }

/-- `UNA::new`. -/
def UNA.new (component_sep element_sep decimal_char escape reserved segment_sep : Char) :
    UNA :=
  { component_sep := component_sep
    element_sep := element_sep
    decimal_char := decimal_char
    escape := escape
    reserved := reserved
    segment_sep := segment_sep }

/-- `UNA::is_separator`: component, segment or element separator. -/
def UNA.is_separator (self : UNA) (c : Char) : Bool :=
  self.component_sep == c || self.segment_sep == c || self.element_sep == c

/-- `UNA::is_escape`. -/
def UNA.is_escape (self : UNA) (c : Char) : Bool :=
  self.escape == c

/-- `UNA::parser`: `attempt((string("UNA"), any(), …, any())).or(value(UNA::default()))`.
It recognises the literal `UNA` followed by any six characters and consumes
exactly those nine; on any other input the `attempt` backtracks and the
parser consumes nothing, yielding the defaults.  It never fails. -/
def UNA.parser : List Char → UNA × List Char
  | 'U' :: 'N' :: 'A' :: c1 :: c2 :: c3 :: c4 :: c5 :: c6 :: rest =>
      (UNA.new c1 c2 c3 c4 c5 c6, rest)
  | input => (UNA.default, input)

/-- `DataElement` from `src/mig/decode/parser/value.rs`.  The `end` field of
the source is called `stop` here (`end` is a Lean keyword). -/
structure DataElement where
  start : Position
  stop : Position
  value : String
deriving Repr, DecidableEq

/-- The raw text of one data element, as consumed by
`recognize(escaped(take_while1(|c| !is_escape(c) && !is_separator(c)), escape, any()))`
inside `DataElement::parser`.  Plain characters are taken while they are
neither the escape nor a separator; at the escape character both the escape
and the following character are consumed (`recognize` keeps the whole raw
range, so the escape character stays in the value); at a separator or at the
end of the input the value ends.  An escape as the last input character makes
the inner `any()` fail after input was consumed, so the parse fails (`none`). -/
def escapedText (una : UNA) : List Char → Option (List Char × List Char)
  | [] => some ([], [])
  | c :: cs =>
    if una.is_escape c then
      match cs with
      | [] => none
      | d :: ds =>
        match escapedText una ds with
        | some (v, rest) => some (c :: d :: v, rest)
        | none => none
    else if una.is_separator c then some ([], c :: cs)
    else
      match escapedText una cs with
      | some (v, rest) => some (c :: v, rest)
      | none => none

/-- `DataElement::parser`: `(position(), text, position())`, recording the
positions just before and just after the consumed raw text. -/
def DataElement.parser (una : UNA) (pos : Position) (input : List Char) :
    Option (DataElement × Position × List Char) :=
  match escapedText una input with
  | none => none
  | some (raw, rest) =>
    let stop := raw.foldl Position.next pos
    some ({ start := pos, stop := stop, value := String.mk raw }, stop, rest)

/-- Whatever `escapedText` leaves unconsumed is a suffix of the input. -/
theorem escapedText_rest_length (una : UNA) :
    ∀ (input v rest : List Char),
      escapedText una input = some (v, rest) → rest.length ≤ input.length
  | [], v, rest, h => by
      simp only [escapedText, Option.some.injEq, Prod.mk.injEq] at h
      obtain ⟨h1, h2⟩ := h
      subst h2
      simp
  | c :: cs, v, rest, h => by
      unfold escapedText at h
      split at h
      · split at h
        · exact absurd h (by simp)
        · rename_i d ds
          split at h
          · rename_i v' rest' hrec
            simp only [Option.some.injEq, Prod.mk.injEq] at h
            obtain ⟨h1, h2⟩ := h
            subst h2
            have := escapedText_rest_length una ds v' rest' hrec
            simp only [List.length_cons]
            omega
          · exact absurd h (by simp)
      · split at h
        · simp only [Option.some.injEq, Prod.mk.injEq] at h
          obtain ⟨h1, h2⟩ := h
          subst h2
          simp
        · split at h
          · rename_i v' rest' hrec
            simp only [Option.some.injEq, Prod.mk.injEq] at h
            obtain ⟨h1, h2⟩ := h
            subst h2
            have := escapedText_rest_length una cs v' rest' hrec
            simp only [List.length_cons]
            omega
          · exact absurd h (by simp)

/-- `DataElement::parser` also leaves a suffix of its input. -/
theorem dataElement_rest_length (una : UNA) (pos : Position)
    (input : List Char) (de : DataElement) (pos1 : Position) (rest : List Char)
    (h : DataElement.parser una pos input = some (de, pos1, rest)) :
    rest.length ≤ input.length := by
  unfold DataElement.parser at h
  cases he : escapedText una input with
  | none => rw [he] at h; exact absurd h (by simp)
  | some vr =>
      obtain ⟨v, r⟩ := vr
      rw [he] at h
      simp only [Option.some.injEq, Prod.mk.injEq] at h
      obtain ⟨h1, h2, h3⟩ := h
      subst h3
      exact escapedText_rest_length una input v r he


/-- The component-separated list of data elements inside one element slot:
`DataElement::parser` followed by zero or more of
`char(component_sep)` then `DataElement::parser`.  `Composite::parser` is
exactly this list when it has at least two entries (the source writes it as
one data element, one separator character and a `sep_by1` of the rest). -/
def components (una : UNA) (pos : Position) (input : List Char) :
    Option (List DataElement × Position × List Char) :=
  match h : DataElement.parser una pos input with
  | none => none
  | some (de, pos1, []) => some ([de], pos1, [])
  | some (de, pos1, c :: cs) =>
    if c = una.component_sep then
      match components una (Position.next pos1 c) cs with
      | none => none
      | some (des, pos2, rest2) => some (de :: des, pos2, rest2)
    else some ([de], pos1, c :: cs)
termination_by input.length
decreasing_by
  have := dataElement_rest_length una pos input de pos1 (c :: cs) h
  simp only [List.length_cons] at this
  omega

/-- `Composite` from `src/mig/decode/parser/value.rs`. -/
structure Composite where
  elements : List DataElement
deriving Repr, DecidableEq

/-- `Composite::parser`: `(DataElement::parser, char(component_sep), sep_by1(DataElement::parser, char(component_sep)))`,
the first element consed onto the rest — i.e. the component list of the slot,
successful only when it has at least two entries. -/
def Composite.parser (una : UNA) (pos : Position) (input : List Char) :
    Option (Composite × Position × List Char) :=
  match components una pos input with
  | none => none
  | some (des, p, r) =>
    if 2 ≤ des.length then some ({ elements := des }, p, r) else none

/-- One element slot of a segment, from `Segment::parser`:
`attempt(Composite::parser.map(Left)).or(DataElement::parser.map(Right))`. -/
def elementSlot (una : UNA) (pos : Position) (input : List Char) :
    Option (Either Composite DataElement × Position × List Char) :=
  match Composite.parser una pos input with
  | some (c, p, r) => some (Either.Left c, p, r)
  | none =>
    match DataElement.parser una pos input with
    | none => none
    | some (d, p, r) => some (Either.Right d, p, r)

/-- `components` also leaves a suffix of its input. -/
theorem components_rest_length (una : UNA) :
    ∀ (pos : Position) (input : List Char) (des : List DataElement) (p : Position)
      (r : List Char),
      components una pos input = some (des, p, r) → r.length ≤ input.length := by
  intro pos input
  induction pos, input using components.induct una with
  | case1 pos input hde =>
      intro des p r h
      unfold components at h
      rw [hde] at h
      exact absurd h (by simp)
  | case2 pos input de pos1 hde =>
      intro des p r h
      unfold components at h
      rw [hde] at h
      simp only [Option.some.injEq, Prod.mk.injEq] at h
      obtain ⟨-, -, h3⟩ := h
      subst h3
      simp
  | case3 pos input de pos1 cs hde hrec ih =>
      intro des p r h
      unfold components at h
      rw [hde] at h
      simp only [hrec] at h
      simp at h
  | case4 pos input de pos1 cs des2 pos2 rest2 hde hrec ih =>
      intro des p r h
      unfold components at h
      rw [hde] at h
      simp only [hrec] at h
      simp only [if_true, eq_self_iff_true, ite_true, Option.some.injEq,
        Prod.mk.injEq] at h
      obtain ⟨h1, h2, h3⟩ := h
      subst h3
      have hlen := dataElement_rest_length una pos input de pos1 _ hde
      have := ih des2 pos2 _ hrec
      simp only [List.length_cons] at hlen
      omega
  | case5 pos input de pos1 c cs hde hc =>
      intro des p r h
      unfold components at h
      rw [hde] at h
      simp only [if_neg hc] at h
      simp only [Option.some.injEq, Prod.mk.injEq] at h
      obtain ⟨-, -, h3⟩ := h
      subst h3
      exact dataElement_rest_length una pos input de pos1 _ hde

/-- `Composite::parser` leaves a suffix of its input. -/
theorem composite_rest_length (una : UNA) (pos : Position) (input : List Char)
    (c : Composite) (p : Position) (r : List Char)
    (h : Composite.parser una pos input = some (c, p, r)) : r.length ≤ input.length := by
  unfold Composite.parser at h
  split at h
  · exact absurd h (by simp)
  · rename_i des p2 r2 heq
    split at h
    · simp only [Option.some.injEq, Prod.mk.injEq] at h
      obtain ⟨h1, h2, h3⟩ := h
      subst h3
      exact components_rest_length una pos input des p2 _ heq
    · exact absurd h (by simp)

/-- An element slot also leaves a suffix of its input. -/
theorem elementSlot_rest_length (una : UNA) (pos : Position) (input : List Char)
    (e : Either Composite DataElement) (p : Position) (r : List Char)
    (h : elementSlot una pos input = some (e, p, r)) : r.length ≤ input.length := by
  unfold elementSlot at h
  cases hc : Composite.parser una pos input with
  | some out =>
      obtain ⟨c, p2, r2⟩ := out
      rw [hc] at h
      simp only [Option.some.injEq, Prod.mk.injEq] at h
      obtain ⟨-, -, h3⟩ := h
      subst h3
      exact composite_rest_length una pos input c p2 _ hc
  | none =>
      rw [hc] at h
      cases hd : DataElement.parser una pos input with
      | none => rw [hd] at h; exact absurd h (by simp)
      | some out =>
          obtain ⟨d, p2, r2⟩ := out
          rw [hd] at h
          simp only [Option.some.injEq, Prod.mk.injEq] at h
          obtain ⟨-, -, h3⟩ := h
          subst h3
          exact dataElement_rest_length una pos input d p2 _ hd

/-- The element slots of a segment:
`sep_by(element, char(element_sep))` from `Segment::parser`.  The element
parser never fails without consuming input, so the list always holds at
least one slot and a failing slot fails the whole parse. -/
def elementsList (una : UNA) (pos : Position) (input : List Char) :
    Option (List (Either Composite DataElement) × Position × List Char) :=
  match h : elementSlot una pos input with
  | none => none
  | some (e, pos1, []) => some ([e], pos1, [])
  | some (e, pos1, c :: cs) =>
    if c = una.element_sep then
      match elementsList una (Position.next pos1 c) cs with
      | none => none
      | some (es, pos2, rest2) => some (e :: es, pos2, rest2)
    else some ([e], pos1, c :: cs)
termination_by input.length
decreasing_by
  have := elementSlot_rest_length una pos input e pos1 (c :: cs) h
  simp only [List.length_cons] at this
  omega

/-- `Segment` from `src/mig/decode/parser/value.rs`. -/
structure Segment where
  tag : DataElement
  elements : List (Either Composite DataElement)
deriving Repr, DecidableEq

/-- `spaces()`: skip zero or more whitespace characters. -/
def skipSpaces (pos : Position) : List Char → Position × List Char
  | [] => (pos, [])
  | c :: cs =>
    if c.isWhitespace then skipSpaces (Position.next pos c) cs else (pos, c :: cs)

/-- `Segment::parser`: a tag data element, the element separator, the slots
separated by the element separator, the segment separator, then `spaces()`. -/
def Segment.parser (una : UNA) (pos : Position) (input : List Char) :
    Option (Segment × Position × List Char) :=
  match DataElement.parser una pos input with
  | none => none
  | some (tag, pos1, rest1) =>
    match rest1 with
    | [] => none
    | c :: rest2 =>
      if c = una.element_sep then
        match elementsList una (Position.next pos1 c) rest2 with
        | none => none
        | some (elements, pos2, rest3) =>
          match rest3 with
          | [] => none
          | d :: rest4 =>
            if d = una.segment_sep then
              let (pos3, rest5) := skipSpaces (Position.next pos2 d) rest4
              some ({ tag := tag, elements := elements }, pos3, rest5)
            else none
      else none

/-- `skipSpaces` only drops characters. -/
theorem skipSpaces_rest_length : ∀ (pos : Position) (input : List Char),
    (skipSpaces pos input).2.length ≤ input.length
  | pos, [] => by simp [skipSpaces]
  | pos, c :: cs => by
      unfold skipSpaces
      split
      · have := skipSpaces_rest_length (Position.next pos c) cs
        simp only [List.length_cons]
        omega
      · simp

/-- `elementsList` leaves a suffix of its input. -/
theorem elementsList_rest_length (una : UNA) :
    ∀ (pos : Position) (input : List Char) (es : List (Either Composite DataElement))
      (p : Position) (r : List Char),
      elementsList una pos input = some (es, p, r) → r.length ≤ input.length := by
  intro pos input
  induction pos, input using elementsList.induct una with
  | case1 pos input he =>
      intro es p r h
      unfold elementsList at h
      rw [he] at h
      exact absurd h (by simp)
  | case2 pos input e pos1 he =>
      intro es p r h
      unfold elementsList at h
      rw [he] at h
      simp only [Option.some.injEq, Prod.mk.injEq] at h
      obtain ⟨-, -, h3⟩ := h
      subst h3
      simp
  | case3 pos input e pos1 cs he hrec ih =>
      intro es p r h
      unfold elementsList at h
      rw [he] at h
      simp only [hrec] at h
      simp at h
  | case4 pos input e pos1 cs es2 pos2 rest2 he hrec ih =>
      intro es p r h
      unfold elementsList at h
      rw [he] at h
      simp only [hrec] at h
      simp only [if_true, eq_self_iff_true, ite_true, Option.some.injEq,
        Prod.mk.injEq] at h
      obtain ⟨h1, h2, h3⟩ := h
      subst h3
      have hlen := elementSlot_rest_length una pos input e pos1 _ he
      have := ih es2 pos2 _ hrec
      simp only [List.length_cons] at hlen
      omega
  | case5 pos input e pos1 c cs he hc =>
      intro es p r h
      unfold elementsList at h
      rw [he] at h
      simp only [if_neg hc] at h
      simp only [Option.some.injEq, Prod.mk.injEq] at h
      obtain ⟨-, -, h3⟩ := h
      subst h3
      exact elementSlot_rest_length una pos input e pos1 _ he

/-- A parsed segment consumes at least one character. -/
theorem segment_rest_length (una : UNA) (pos : Position) (input : List Char)
    (s : Segment) (p : Position) (r : List Char)
    (h : Segment.parser una pos input = some (s, p, r)) : r.length < input.length := by
  unfold Segment.parser at h
  split at h
  · exact absurd h (by simp)
  · rename_i tag pos1 rest1 hd
    split at h
    · exact absurd h (by simp)
    · rename_i c rest2
      have h1 := dataElement_rest_length una pos input tag pos1 _ hd
      simp only [List.length_cons] at h1
      split at h
      · split at h
        · exact absurd h (by simp)
        · rename_i elements pos2 rest3 hel
          have h2 := elementsList_rest_length una _ rest2 elements pos2 _ hel
          split at h
          · exact absurd h (by simp)
          · rename_i d rest4
            simp only [List.length_cons] at h2
            split at h
            · rcases hsk : skipSpaces (Position.next pos2 d) rest4 with ⟨pos3, rest5⟩
              rw [hsk] at h
              have h3 := skipSpaces_rest_length (Position.next pos2 d) rest4
              rw [hsk] at h3
              simp only [Option.some.injEq, Prod.mk.injEq] at h
              obtain ⟨hh1, hh2, hh3⟩ := h
              subst hh3
              simp only at h3
              omega
            · exact absurd h (by simp)
      · exact absurd h (by simp)

/-- `Interchange` from `src/mig/decode/parser/value.rs`: a UNA record plus
the ordered segments. -/
structure Interchange where
  una : UNA
  segments : List Segment
deriving Repr, DecidableEq

/-- `repeat_until(attempt(Segment::parser(&una)), eof())`: parse segments
until the end of the input; a failing segment parse before the end of input
fails the whole parse. -/
def segmentsList (una : UNA) (pos : Position) (input : List Char) :
    Option (List Segment) :=
  match hin : input with
  | [] => some []
  | _ :: _ =>
    match h : Segment.parser una pos input with
    | none => none
    | some (s, pos1, rest) =>
      match segmentsList una pos1 rest with
      | none => none
      | some ss => some (s :: ss)
termination_by input.length
decreasing_by
  have := segment_rest_length una pos input s pos1 rest h
  rw [hin] at this
  simpa using this

/-- `Interchange::parser`:
`UNA::parser().then(|una| repeat_until(attempt(Segment::parser(&una)), eof()))`.
Source positions start at line 1, column 1; the segments start at the
position reached after the (possibly empty) UNA prefix. -/
def Interchange.parser (input : List Char) : Option Interchange :=
  let (una, rest) := UNA.parser input
  let pos := (input.take (input.length - rest.length)).foldl Position.next ⟨1, 1⟩
  match segmentsList una pos rest with
  | none => none
  | some segments => some { una := una, segments := segments }

end value
namespace desc

/-- `St` from `src/mig/description.rs`: the M/R/O/D/C/N status. -/
inductive St where
  | M
  | R
  | O
  | D
  | C
  | N
deriving Repr, DecidableEq

/-- `St::is_optional`: O, C or D. -/
def St.is_optional (self : St) : Bool :=
  self == St.O || self == St.C || self == St.D

/-- `St::is_required`: R or M. -/
def St.is_required (self : St) : Bool :=
  self == St.R || self == St.M

/-- `St::is_not_used`: N. -/
def St.is_not_used (self : St) : Bool :=
  self == St.N

/-- `Choice` from `src/mig/description.rs`. -/
structure Choice where
  value : String
  semantics : Option String
  comment : Option String
deriving Repr, DecidableEq

/-- `Usage` from `src/mig/description.rs`. -/
inductive Usage where
  | Text (comment : Option String)
  | Integer (comment : Option String)
  | Decimal (comment : Option String)
  | OneOf (choices : List Choice) (comment : Option String)
  | Static (value : Choice) (comment : Option String)
deriving Repr, DecidableEq

/-- `Size` from `src/mig/description.rs`. -/
inductive Size where
  | Exactly
  | AtMost
deriving Repr, DecidableEq

/-- `Format` from `src/mig/description.rs`. -/
inductive Format where
  | Alphanumeric (size : Size)
  | Alpha (size : Size)
  | Numeric (size : Size)
deriving Repr, DecidableEq

/-- `DataElement` from `src/mig/description.rs`. -/
structure DataElement where
  label : String
  name : String
  st : St
  format : Format
  length : Nat
  usage : Usage
deriving Repr, DecidableEq

/-- Rust `str::contains` with a literal pattern: the needle occurs as a
contiguous substring (character-wise). -/
def strContains (haystack needle : String) : Bool :=
  decide (List.IsInfix needle.data haystack.data)

/-- `DataElement::is_qualifier`: the name contains the substring
`"Qualifier"` or `"qualifier"` (case-sensitive, both spellings). -/
def DataElement.is_qualifier (self : DataElement) : Bool :=
  strContains self.name "Qualifier" || strContains self.name "qualifier"

/-- `Composite` from `src/mig/description.rs`. -/
structure Composite where
  label : String
  name : String
  st : St
  elements : List DataElement
deriving Repr, DecidableEq

/-- `Segment` from `src/mig/description.rs`. -/
structure Segment where
  counter : String
  number : Nat
  tag : String
  st : St
  max_reps : Nat
  level : Nat
  name : String
  comment : Option String
  elements : List (Either Composite DataElement)
deriving Repr, DecidableEq

/-- `Segmentgroup` from `src/mig/description.rs`: a counter, label, status,
repetition bound, level, name, comment and a body of nested groups and
segments.  Lean structures cannot be recursive, so the record is an
inductive with one constructor and explicit field accessors below. -/
inductive Segmentgroup where
  | mk (counter : String) (label : String) (st : St) (max_reps : Nat)
      (level : Nat) (name : String) (comment : Option String)
      (segments : List (Either Segmentgroup Segment)) : Segmentgroup

def Segmentgroup.counter : Segmentgroup → String
  | .mk c _ _ _ _ _ _ _ => c

def Segmentgroup.label : Segmentgroup → String
  | .mk _ l _ _ _ _ _ _ => l

def Segmentgroup.st : Segmentgroup → St
  | .mk _ _ s _ _ _ _ _ => s

def Segmentgroup.max_reps : Segmentgroup → Nat
  | .mk _ _ _ m _ _ _ _ => m

def Segmentgroup.level : Segmentgroup → Nat
  | .mk _ _ _ _ l _ _ _ => l

def Segmentgroup.name : Segmentgroup → String
  | .mk _ _ _ _ _ n _ _ => n

def Segmentgroup.comment : Segmentgroup → Option String
  | .mk _ _ _ _ _ _ c _ => c

def Segmentgroup.segments : Segmentgroup → List (Either Segmentgroup Segment)
  | .mk _ _ _ _ _ _ _ s => s

/-- `Message` from `src/mig/description.rs`. -/
structure Message where
  unh : Segment
  segments : List (Either Segmentgroup Segment)
  unt : Segment

/-- `Interchange` from `src/mig/description.rs`. -/
structure Interchange where
  unb : Segment
  message : Message
  unz : Segment

end desc

/-- `SyntaxError` from `src/mig/error.rs`: a CONTRL error code with its
short human name.  (The source also stores a long German message text; no
behaviour depends on it, so the embedding keeps the code and name that
identify each catalogue entry.) -/
structure SyntaxError where
  code : Nat
  name : String
deriving Repr, DecidableEq

/-- `SyntaxError::invalid_value` (code 12). -/
def SyntaxError.invalid_value : SyntaxError :=
  { code := 12, name := "Ungültiger Wert" }

/-- `SyntaxError::missing` (code 13). -/
def SyntaxError.missing : SyntaxError :=
  { code := 13, name := "Fehlt" }

/-- `SyntaxError::too_many_parts` (code 16). -/
def SyntaxError.too_many_parts : SyntaxError :=
  { code := 16, name := "Zuviele Bestandteile" }

/-- `SyntaxError::data_element_too_long` (code 39). -/
def SyntaxError.data_element_too_long : SyntaxError :=
  { code := 39, name := "Datenelement zu lang" }

/-- `SyntaxError::data_element_too_short` (code 40; the source reuses the
name string of code 39 for it). -/
def SyntaxError.data_element_too_short : SyntaxError :=
  { code := 40, name := "Datenelement zu lang" }

/-- `DataElementError` from `src/mig/error.rs`. -/
structure DataElementError where
  pos : Nat
  syntax_error : SyntaxError
deriving Repr, DecidableEq

/-- `DataElementError::new`. -/
def DataElementError.new (pos : Nat) (syntax_error : SyntaxError) : DataElementError :=
  { pos := pos, syntax_error := syntax_error }

/-- `CompositeError` from `src/mig/error.rs`. -/
structure CompositeError where
  pos : Nat
  syntax_error : Option SyntaxError
  errors : List DataElementError
deriving Repr, DecidableEq

/-- `CompositeError::syntax_error`. -/
def CompositeError.mkSyntaxError (pos : Nat) (syntax_error : SyntaxError) : CompositeError :=
  { pos := pos, syntax_error := some syntax_error, errors := [] }

/-- `SegmentError` from `src/mig/error.rs`. -/
structure SegmentError where
  pos : Nat
  syntax_error : Option SyntaxError
  errors : List (Either CompositeError DataElementError)
deriving Repr, DecidableEq

/-- `ServiceSegmentError` from `src/mig/error.rs`. -/
structure ServiceSegmentError where
  tag : String
  error : Either CompositeError DataElementError
deriving Repr, DecidableEq

/-- `MessageError` from `src/mig/error.rs`. -/
structure MessageError where
  pos : Nat
  service_segment_error : Option ServiceSegmentError
  segment_errors : List SegmentError
deriving Repr, DecidableEq

/-- `InterchangeError` from `src/mig/error.rs`. -/
structure InterchangeError where
  pos : Nat
  service_segment_error : Option ServiceSegmentError
  message_errors : List MessageError
deriving Repr, DecidableEq

namespace matched

/-- `Matched` from `src/mig/decode/value.rs` (`Decimal` wraps the source's
`f64`; the core never constructs the `Int`/`Decimal` variants). -/
inductive Matched where
  | Text (s : String)
  | Int (n : Nat)
  | Decimal (value : Float)

/-- Matched `DataElement` from `src/mig/decode/value.rs`. -/
structure DataElement where
  description : desc.DataElement
  index : Nat
  value : Option Matched

/-- Matched `Composite` from `src/mig/decode/value.rs`. -/
structure Composite where
  index : Nat
  label : String
  name : String
  st : desc.St
  elements : List DataElement

/-- Matched `Segment` from `src/mig/decode/value.rs`. -/
structure Segment where
  index : Nat
  counter : String
  number : Nat
  tag : String
  st : desc.St
  max_reps : Nat
  level : Nat
  name : String
  comment : Option String
  elements : List (Either Composite DataElement)

/-- Matched `Segmentgroup` from `src/mig/decode/value.rs` (an inductive with
one constructor because Lean structures cannot be recursive). -/
inductive Segmentgroup where
  | mk (counter : String) (label : String) (st : desc.St) (max_reps : Nat)
      (level : Nat) (name : String) (comment : Option String)
      (segments : List (Either Segmentgroup Segment)) : Segmentgroup

/-- Matched `Interchange` from `src/mig/decode/value.rs`. -/
structure Interchange where
  segments : List (Either Segmentgroup Segment)

end matched

/-- `check_st` from `src/mig/decode/value.rs`: empty and required fails with
`missing`, non-empty and not-used fails with `invalid_value`, anything else
passes the input through. -/
def check_st (st : desc.St) (input : String) : Except SyntaxError String :=
  if input.isEmpty && st.is_required then Except.error SyntaxError.missing
  else if !input.isEmpty && st.is_not_used then Except.error SyntaxError.invalid_value
  else Except.ok input

/-- `check_size` from `src/mig/decode/value.rs`. -/
def check_size (st : desc.St) (size : desc.Size) (length : Nat) (input : String) :
    Except SyntaxError String :=
  match size with
  | desc.Size.Exactly =>
    if (st.is_optional || st.is_not_used) && input == "" then Except.ok input
    else if input.length < length then Except.error SyntaxError.data_element_too_short
    else if input.length > length then Except.error SyntaxError.data_element_too_long
    else Except.ok input
  | desc.Size.AtMost =>
    if input.length > length then Except.error SyntaxError.data_element_too_long
    else Except.ok input

/-- `check_format` from `src/mig/decode/value.rs`: every character class
dispatches to the same size check; the class itself is not enforced. -/
def check_format (st : desc.St) (format : desc.Format) (length : Nat) (input : String) :
    Except SyntaxError String :=
  match format with
  | desc.Format.Alphanumeric size => check_size st size length input
  | desc.Format.Alpha size => check_size st size length input
  | desc.Format.Numeric size => check_size st size length input

/-- `match_data_element` from `src/mig/decode/value.rs`. -/
def match_data_element (pos : Nat) (d : desc.DataElement) (element : value.DataElement) :
    Except DataElementError matched.DataElement :=
  match check_st d.st element.value with
  | Except.error e => Except.error (DataElementError.new pos e)
  | Except.ok st_checked =>
    if st_checked.isEmpty then
      Except.ok { description := d, index := pos, value := none }
    else
      match check_format d.st d.format d.length st_checked with
      | Except.error e => Except.error (DataElementError.new pos e)
      | Except.ok v =>
        Except.ok { description := d, index := pos, value := some (matched.Matched.Text v) }

/-- The zipping loop of `match_composite_help`, with the loop state made
explicit: it returns the structural syntax error (set only when raw values
outnumber descriptions), the matches and the errors accumulated over the
remaining description/value lists, starting at slot index `position`. -/
def compositeLoop (position : Nat) :
    List desc.DataElement → List value.DataElement →
      Option SyntaxError × List matched.DataElement × List DataElementError
  | [], [] => (none, [], [])
  | [], _ :: _ => (some SyntaxError.too_many_parts, [], [])
  | d :: ds, [] =>
    let (se, ms, es) := compositeLoop (position + 1) ds []
    if d.st.is_required then
      (se, ms, DataElementError.new position SyntaxError.missing :: es)
    else (se, ms, es)
  | d :: ds, v :: vs =>
    let (se, ms, es) := compositeLoop (position + 1) ds vs
    match match_data_element position d v with
    | Except.ok m => (se, m :: ms, es)
    | Except.error e => (se, ms, e :: es)

/-- `match_composite_help` from `src/mig/decode/value.rs`: run the zip loop,
then fail iff an error was collected or the structural syntax error is set. -/
def match_composite_help (pos : Nat) (descs_vec : List desc.DataElement)
    (values_vec : List value.DataElement) :
    Except CompositeError (List matched.DataElement) :=
  let (syntax_error, ms, errors) := compositeLoop 0 descs_vec values_vec
  if !errors.isEmpty || syntax_error.isSome then
    Except.error { pos := pos, syntax_error := syntax_error, errors := errors }
  else Except.ok ms

/-- `match_composite` from `src/mig/decode/value.rs`. -/
def match_composite (pos : Nat) (d : desc.Composite) (composite : value.Composite) :
    Except CompositeError matched.Composite :=
  if d.st.is_required && composite.elements.isEmpty then
    Except.error (CompositeError.mkSyntaxError pos SyntaxError.missing)
  else
    match match_composite_help pos d.elements composite.elements with
    | Except.ok ms =>
      Except.ok { index := pos, label := d.label, name := d.name, st := d.st,
                  elements := ms }
    | Except.error e => Except.error e

/-- The zipping loop of `match_segment`, with the loop state made explicit,
mirroring the six arms of the source's `match (descs.next(), values.next())`. -/
def segmentLoop (position : Nat) :
    List (Either desc.Composite desc.DataElement) →
      List (Either value.Composite value.DataElement) →
        Option SyntaxError × List (Either matched.Composite matched.DataElement) ×
          List (Either CompositeError DataElementError)
  | [], [] => (none, [], [])
  | [], _ :: _ => (some SyntaxError.too_many_parts, [], [])
  | d :: ds, [] =>
    let (se, ms, es) := segmentLoop (position + 1) ds []
    match d with
    | Either.Right de =>
      if de.st.is_required then
        (se, ms, Either.Right (DataElementError.new position SyntaxError.missing) :: es)
      else (se, ms, es)
    | Either.Left c =>
      if c.st.is_required then
        (se, ms, Either.Right (DataElementError.new position SyntaxError.missing) :: es)
      else (se, ms, es)
  | d :: ds, v :: vs =>
    let (se, ms, es) := segmentLoop (position + 1) ds vs
    match d, v with
    | Either.Right _, Either.Left _ =>
      (se, ms, Either.Right (DataElementError.new position SyntaxError.invalid_value) :: es)
    | Either.Left dc, Either.Right dv =>
      if !(dv.value == "" && dc.st == desc.St.N) then
        match match_composite position dc { elements := [dv] } with
        | Except.ok c => (se, Either.Left c :: ms, es)
        | Except.error e => (se, ms, Either.Left e :: es)
      else (se, ms, es)
    | Either.Left dc, Either.Left cv =>
      match match_composite position dc cv with
      | Except.ok c => (se, Either.Left c :: ms, es)
      | Except.error e => (se, ms, Either.Left e :: es)
    | Either.Right dd, Either.Right dv =>
      match match_data_element position dd dv with
      | Except.ok m => (se, Either.Right m :: ms, es)
      | Except.error e => (se, ms, Either.Right e :: es)

/-- `match_segment` from `src/mig/decode/value.rs`: run the zip loop over the
element slots, then fail iff an error was collected or the structural syntax
error is set. -/
def match_segment (pos : Nat) (d : desc.Segment) (segment : value.Segment) :
    Except SegmentError matched.Segment :=
  let (syntax_error, ms, errors) := segmentLoop 0 d.elements segment.elements
  if !errors.isEmpty || syntax_error.isSome then
    Except.error { pos := pos, syntax_error := syntax_error, errors := errors }
  else
    Except.ok { index := pos, counter := d.counter, number := d.number, tag := d.tag,
                st := d.st, max_reps := d.max_reps, level := d.level, name := d.name,
                comment := d.comment, elements := ms }

/-- The `desc.elements.get(0).and_then(...)` chain of `matches_segment`:
the first data element of a segment description, diving into the first
composite when the first slot is one. -/
def firstDataElement (elements : List (Either desc.Composite desc.DataElement)) :
    Option desc.DataElement :=
  elements.head?.bind fun element =>
    match element with
    | Either.Left composite => composite.elements.head?
    | Either.Right data_element => some data_element

/-- The `value.elements.get(0).and_then(...)` chain of `matches_segment`:
the first raw data element of a raw segment, diving into the first composite. -/
def firstValueDataElement (elements : List (Either value.Composite value.DataElement)) :
    Option value.DataElement :=
  elements.head?.bind fun element =>
    match element with
    | Either.Left composite => composite.elements.head?
    | Either.Right data_element => some data_element

/-- `matches_segment` from `src/mig/decode/value.rs`. -/
def matches_segment (d : desc.Segment) (check_qualifier : Bool) (v : value.Segment) :
    Bool :=
  if !check_qualifier then
    d.tag == v.tag.value
  else if d.tag != v.tag.value then
    false
  else
    let qualifier := (firstDataElement d.elements).bind fun data_element =>
      if data_element.is_qualifier then some data_element.usage else none
    let option_data_element := firstValueDataElement v.elements
    match qualifier, option_data_element with
    | some (desc.Usage.OneOf choices _), some data_element =>
        choices.any fun c => c.value == data_element.value
    | some (desc.Usage.Static value _), some data_element =>
        value.value == data_element.value
    | _, _ => false

/-- `matches_segmentgroup` from `src/mig/decode/value.rs`: the group's body
starts with a plain segment description matching the value. -/
def matches_segmentgroup (d : desc.Segmentgroup) (check_qualifier : Bool)
    (v : value.Segment) : Bool :=
  match d.segments with
  | Either.Right segment :: _ => matches_segment segment check_qualifier v
  | _ => false

/-- `get_counter` from `src/mig/decode/value.rs`. -/
def get_counter : Either desc.Segmentgroup desc.Segment → String
  | Either.Left v => v.counter
  | Either.Right v => v.counter

/-- A description element together with its dispatch in the walk:
group descriptions use `matches_segmentgroup`, segments `matches_segment`. -/
def matchesDesc (d : Either desc.Segmentgroup desc.Segment) (check_qualifier : Bool)
    (v : value.Segment) : Bool :=
  match d with
  | Either.Left g => matches_segmentgroup g check_qualifier v
  | Either.Right s => matches_segment s check_qualifier v

/-- `itertools::group_by(get_counter)`: maximal runs of consecutive
descriptions sharing one counter (helper carrying the current key and the
reversed current run). -/
def groupRunsAux (key : String) (acc : List (Either desc.Segmentgroup desc.Segment)) :
    List (Either desc.Segmentgroup desc.Segment) →
      List (List (Either desc.Segmentgroup desc.Segment))
  | [] => [acc.reverse]
  | d :: ds =>
    if get_counter d = key then groupRunsAux key (d :: acc) ds
    else acc.reverse :: groupRunsAux (get_counter d) [d] ds

/-- The counter runs of a description list, in order. -/
def groupRuns : List (Either desc.Segmentgroup desc.Segment) →
    List (List (Either desc.Segmentgroup desc.Segment))
  | [] => []
  | d :: ds => groupRunsAux (get_counter d) [d] ds

/-- `next_descs.iter().position(|d| matches…)` together with `next_descs[i]`
and `next_descs.remove(i)`: the first description of the run matching `v`,
presented as (prefix, match, suffix), so removal is `pre ++ post` and keeping
it is `pre ++ m :: post`. -/
def findMatchSplit (check_qualifier : Bool) (v : value.Segment) :
    List (Either desc.Segmentgroup desc.Segment) →
      Option (List (Either desc.Segmentgroup desc.Segment) ×
        Either desc.Segmentgroup desc.Segment ×
        List (Either desc.Segmentgroup desc.Segment))
  | [] => none
  | d :: ds =>
    if matchesDesc d check_qualifier v then some ([], d, ds)
    else
      match findMatchSplit check_qualifier v ds with
      | some (pre, m, post) => some (d :: pre, m, post)
      | none => none

mutual

/-- The `while let Some(v) = stack.pop()` loop of `matching` for one counter
run.  A value matching no description of the run is pushed back and the loop
breaks; a matched segment description is consumed (and removed from the run
when `max_reps == 1`); a matched group recurses into `matching` with the rest
of the stack (the popped value itself is dropped by the source).  `fuel`
bounds the loop steps — the source loop need not terminate when a nested
group consumes nothing — and every theorem below quantifies over it.  The
result is (index, matches, errors, remaining stack). -/
def runLoop : Nat → Bool → Nat → List (Either desc.Segmentgroup desc.Segment) →
    List value.Segment →
      Option (Nat × List (Either matched.Segmentgroup matched.Segment) ×
        List SegmentError × List value.Segment)
  | 0, _, _, _, _ => none
  | fuel + 1, check_qualifier, index, next_descs, stack =>
    match stack with
    | [] => some (index, [], [], [])
    | v :: rest =>
      match findMatchSplit check_qualifier v next_descs with
      | none => some (index, [], [], v :: rest)
      | some (pre, Either.Right d, post) =>
        let outcome := match_segment index d v
        let kept := if d.max_reps == 1 then pre ++ post else pre ++ Either.Right d :: post
        (runLoop fuel check_qualifier (index + 1) kept rest).map fun out =>
          match outcome, out with
          | Except.ok m, (i, ms, es, st) => (i, Either.Right m :: ms, es, st)
          | Except.error e, (i, ms, es, st) => (i, ms, e :: es, st)
      | some (pre, Either.Left g, post) =>
        match matching fuel index g.segments rest with
        | none => none
        | some (next, result, stack1) =>
          (runLoop fuel check_qualifier (index + next) (pre ++ Either.Left g :: post)
              stack1).map fun out =>
            match result, out with
            | Except.ok values, (i, ms, es, st) =>
              (i, Either.Left (matched.Segmentgroup.mk g.counter g.label g.st g.max_reps
                g.level g.name g.comment values) :: ms, es, st)
            | Except.error error, (i, ms, es, st) => (i, ms, error ++ es, st)

/-- The run-by-run walk of `matching`: process each counter run in order with
`check_qualifier` fixed to whether the run initially has more than one
description, threading index and stack and concatenating matches and errors. -/
def matchingAux : Nat → Nat → List (List (Either desc.Segmentgroup desc.Segment)) →
    List value.Segment →
      Option (Nat × List (Either matched.Segmentgroup matched.Segment) ×
        List SegmentError × List value.Segment)
  | 0, _, _, _ => none
  | _ + 1, index, [], stack => some (index, [], [], stack)
  | fuel + 1, index, run :: runs, stack =>
    match runLoop fuel (decide (1 < run.length)) index run stack with
    | none => none
    | some (index1, ms1, es1, stack1) =>
      match matchingAux fuel index1 runs stack1 with
      | none => none
      | some (index2, ms2, es2, stack2) => some (index2, ms1 ++ ms2, es1 ++ es2, stack2)

/-- `matching` from `src/mig/decode/value.rs`: group the descriptions into
counter runs, walk them against the stack, and fail exactly when the
accumulated error list is non-empty. -/
def matching : Nat → Nat → List (Either desc.Segmentgroup desc.Segment) →
    List value.Segment →
      Option (Nat × Except (List SegmentError)
        (List (Either matched.Segmentgroup matched.Segment)) × List value.Segment)
  | 0, _, _, _ => none
  | fuel + 1, pos, descs, stack =>
    match matchingAux fuel pos (groupRuns descs) stack with
    | none => none
    | some (index, ms, es, stack1) =>
      some (index, if es.isEmpty then Except.ok ms else Except.error es, stack1)

end

/-- The flattened description sequence built at the start of
`match_interchange`: UNB, UNH, the message body, UNT, UNZ. -/
def flattenDescs (d : desc.Interchange) : List (Either desc.Segmentgroup desc.Segment) :=
  Either.Right d.unb :: Either.Right d.message.unh ::
    (d.message.segments ++ [Either.Right d.message.unt, Either.Right d.unz])

/-- `match_interchange` from `src/mig/decode/value.rs`.  The source reverses
the raw segment vector and pops from its back; a list consumed at the head is
the same stack, so the embedding passes `v.segments` directly.  On failure
every collected segment error lands in one `MessageError` at position 0
inside an `InterchangeError` at position 0. -/
def match_interchange (fuel : Nat) (d : desc.Interchange) (v : value.Interchange) :
    Option (Except InterchangeError matched.Interchange) :=
  match matching fuel 0 (flattenDescs d) v.segments with
  | none => none
  | some (_, Except.ok result, _) => some (Except.ok { segments := result })
  | some (_, Except.error error, _) =>
    some (Except.error
      { pos := 0
        service_segment_error := none
        message_errors :=
          [{ pos := 0, service_segment_error := none, segment_errors := error }] })

/-- `parser::parse` from `src/mig/decode/parser/mod.rs`: read the whole input
and run `Interchange::parser` over it. -/
def parse (input : List Char) : Option value.Interchange :=
  value.Interchange.parser input

/-- The observable outcome of `decode` from `src/mig/decode/mod.rs`.
`panic` models the Rust panic raised by the unguarded `known[0]` index when
the description vector is empty (I/O errors are outside the embedding). -/
inductive DecodeResult where
  | panic
  | parseError
  | migError (e : InterchangeError)
  | ok (v : matched.Interchange)

/-- `decode` from `src/mig/decode/mod.rs`: parse the input — a parse failure
returns `Error::Parse` before the descriptions are touched — then match
against `known[0]`, which panics when `known` is empty.  `none` models only
walk-fuel exhaustion. -/
def decode (fuel : Nat) (known : List desc.Interchange) (input : List Char) :
    Option DecodeResult :=
  match parse input with
  | none => some DecodeResult.parseError
  | some interchange =>
    match known with
    | [] => some DecodeResult.panic
    | k :: _ =>
      match match_interchange fuel k interchange with
      | none => none
      | some (Except.ok v) => some (DecodeResult.ok v)
      | some (Except.error e) => some (DecodeResult.migError e)

/-! ## Claim theorems -/

/-- C1, evaluation at the failing input: under the default service
characters the lexer KEEPS the escape character in the decoded value — the
input `AB?+CD` lexes to the data-element value `AB?+CD` (spanning columns 1
to 7, consuming all seven columns), not to `AB+CD`.  The escape character
`?` is still contained in the value, contradicting the claim and the
source's own doc comment on the `value` field (`recognize(escaped(...))`
returns the raw consumed range, escapes included). -/
theorem c1_escape_kept_in_value :
    (value.DataElement.parser value.UNA.default ⟨1, 1⟩ "AB?+CD".data
      = some ({ start := ⟨1, 1⟩, stop := ⟨1, 7⟩, value := "AB?+CD" }, ⟨1, 7⟩, []))
    ∧ ("AB?+CD" : String) ≠ "AB+CD"
    ∧ "AB?+CD".data.contains '?' = true := by
  refine ⟨by decide, by decide, by decide⟩

/-- C2: the UNA resolver consumes exactly `UNA` plus six characters and
returns those six in order (component separator, element separator, decimal
mark, escape, reserved, segment separator) whenever the input starts with
the literal `UNA` followed by at least six characters; on every other input
it consumes nothing and returns the defaults `:`, `+`, `.`, `?`, space, `'`.
As a total function it never fails. -/
theorem c2_una_resolver (input : List Char) :
    (∀ c1 c2 c3 c4 c5 c6 rest,
        input = 'U' :: 'N' :: 'A' :: c1 :: c2 :: c3 :: c4 :: c5 :: c6 :: rest →
        value.UNA.parser input =
          ({ component_sep := c1, element_sep := c2, decimal_char := c3,
             escape := c4, reserved := c5, segment_sep := c6 }, rest)) ∧
    ((∀ c1 c2 c3 c4 c5 c6 rest,
        input ≠ 'U' :: 'N' :: 'A' :: c1 :: c2 :: c3 :: c4 :: c5 :: c6 :: rest) →
      value.UNA.parser input = (value.UNA.default, input)) := by
  constructor
  · intro c1 c2 c3 c4 c5 c6 rest h
    subst h
    rfl
  · intro h
    unfold value.UNA.parser
    split
    · rename_i c1 c2 c3 c4 c5 c6 rest
      exact absurd rfl (h c1 c2 c3 c4 c5 c6 rest)
    · rfl

/-- C2 witness: the resolver at the concrete header `UNA:+.? '` returns the
six characters that follow the literal and leaves nothing. -/
theorem c2_una_resolver_witness :
    value.UNA.parser ('U' :: 'N' :: 'A' :: ':' :: '+' :: '.' :: '?' :: ' ' :: '\'' :: []) =
      ({ component_sep := ':', element_sep := '+', decimal_char := '.',
         escape := '?', reserved := ' ', segment_sep := '\'' }, []) :=
  (c2_una_resolver _).1 ':' '+' '.' '?' ' ' '\'' [] rfl

/-- C5: `check_st` returns the `missing` error iff the value is empty and
the status is required (M or R); it returns the `invalid_value` error iff
the value is non-empty and the status is not-used (N); otherwise it returns
the input value unchanged. -/
theorem c5_check_st (st : desc.St) (input : String) :
    (check_st st input = Except.error SyntaxError.missing ↔
      input = "" ∧ st.is_required = true) ∧
    (check_st st input = Except.error SyntaxError.invalid_value ↔
      input ≠ "" ∧ st.is_not_used = true) ∧
    (¬(input = "" ∧ st.is_required = true) → ¬(input ≠ "" ∧ st.is_not_used = true) →
      check_st st input = Except.ok input) := by
  have hmv : SyntaxError.missing ≠ SyntaxError.invalid_value := by decide
  by_cases he : input = ""
  · subst he
    cases st <;>
      simp +decide [check_st, desc.St.is_required, desc.St.is_not_used, hmv]
  · have hne : input.isEmpty = false := by
      cases hi : input.isEmpty
      · rfl
      · exact absurd ((String.isEmpty_iff input).mp hi) he
    cases st <;>
      simp [check_st, hne, he, desc.St.is_required, desc.St.is_not_used, hmv.symm]

/-- C5 witness: a required status with an empty value yields `missing`; a
not-used status with value `"x"` yields `invalid_value`; an optional status
passes `"x"` through. -/
theorem c5_check_st_witness :
    check_st desc.St.M "" = Except.error SyntaxError.missing ∧
    check_st desc.St.N "x" = Except.error SyntaxError.invalid_value ∧
    check_st desc.St.O "x" = Except.ok "x" :=
  ⟨(c5_check_st desc.St.M "").1.mpr ⟨rfl, by decide⟩,
   (c5_check_st desc.St.N "x").2.1.mpr ⟨by decide, by decide⟩,
   (c5_check_st desc.St.O "x").2.2 (by decide) (by decide)⟩

/-- C4: for a value that passed the status check, under `Size::Exactly` an
optional or not-used status with an empty value passes; otherwise a value of
length k passes iff k equals the declared length, failing with
`data_element_too_short` for k below it and `data_element_too_long` for k
above it; under `Size::AtMost` the check passes iff k is at most the
declared length and fails with `data_element_too_long` otherwise.  Only the
length is ever checked: `check_format` sends all three character classes to
the same size check, enforcing no class constraint. -/
theorem c4_check_size (st : desc.St) (n : Nat) (input : String) :
    ((st.is_optional || st.is_not_used) = true ∧ input = "" →
      check_size st desc.Size.Exactly n input = Except.ok input) ∧
    (¬((st.is_optional || st.is_not_used) = true ∧ input = "") →
      (check_size st desc.Size.Exactly n input = Except.ok input ↔ input.length = n) ∧
      (input.length < n →
        check_size st desc.Size.Exactly n input =
          Except.error SyntaxError.data_element_too_short) ∧
      (n < input.length →
        check_size st desc.Size.Exactly n input =
          Except.error SyntaxError.data_element_too_long)) ∧
    ((check_size st desc.Size.AtMost n input = Except.ok input ↔ input.length ≤ n) ∧
      (n < input.length →
        check_size st desc.Size.AtMost n input =
          Except.error SyntaxError.data_element_too_long)) ∧
    (∀ size,
      check_format st (desc.Format.Alphanumeric size) n input
          = check_size st size n input ∧
        check_format st (desc.Format.Alpha size) n input = check_size st size n input ∧
        check_format st (desc.Format.Numeric size) n input = check_size st size n input) := by
  refine ⟨?_, ?_, ⟨?_, ?_⟩, fun size => ⟨rfl, rfl, rfl⟩⟩
  · rintro ⟨h1, h2⟩
    subst h2
    simp [check_size, h1]
  · intro h
    have hcond : ((st.is_optional || st.is_not_used) && input == "") = false := by
      cases hb : (st.is_optional || st.is_not_used) with
      | false => simp
      | true =>
          have hni : ¬ input = "" := fun he => h ⟨hb, he⟩
          simp [hni]
    refine ⟨?_, ?_, ?_⟩
    · constructor
      · intro hok
        by_contra hne
        rcases Nat.lt_or_ge input.length n with hlt | hge
        · simp [check_size, hcond, hlt] at hok
        · have hgt : n < input.length := lt_of_le_of_ne hge (fun e => hne e.symm)
          simp [check_size, hcond, Nat.not_lt.mpr hge, hgt] at hok
      · intro heq
        simp [check_size, hcond, heq]
    · intro hlt
      simp [check_size, hcond, hlt]
    · intro hgt
      simp [check_size, hcond, Nat.not_lt.mpr (Nat.le_of_lt hgt), hgt]
  · constructor
    · intro hok
      by_contra hgt
      simp [check_size, Nat.lt_of_not_le hgt] at hok
    · intro hle
      simp [check_size, Nat.not_lt.mpr hle]
  · intro hgt
    simp [check_size, hgt]

/-- C4 witness: with a required status and declared length 3, `"ab"` is too
short, `"abcd"` is too long and `"abc"` passes under `Exactly`; `"abcd"` is
too long under `AtMost`; and the three classes agree on `"ab"`. -/
theorem c4_check_size_witness :
    check_size desc.St.M desc.Size.Exactly 3 "ab"
        = Except.error SyntaxError.data_element_too_short ∧
      check_size desc.St.M desc.Size.Exactly 3 "abcd"
        = Except.error SyntaxError.data_element_too_long ∧
      check_size desc.St.M desc.Size.Exactly 3 "abc" = Except.ok "abc" ∧
      check_size desc.St.M desc.Size.AtMost 3 "abcd"
        = Except.error SyntaxError.data_element_too_long ∧
      check_format desc.St.M (desc.Format.Alpha desc.Size.AtMost) 3 "ab"
        = check_size desc.St.M desc.Size.AtMost 3 "ab" :=
  ⟨((c4_check_size desc.St.M 3 "ab").2.1 (by decide)).2.1 (by decide),
   ((c4_check_size desc.St.M 3 "abcd").2.1 (by decide)).2.2 (by decide),
   ((c4_check_size desc.St.M 3 "abc").2.1 (by decide)).1.mpr (by decide),
   (c4_check_size desc.St.M 3 "abcd").2.2.1.2 (by decide),
   ((c4_check_size desc.St.M 3 "ab").2.2.2 desc.Size.AtMost).2.1⟩

/-- The admission test the claim describes for a qualifier usage: `OneOf`
admits a raw value when some choice's value equals it, `Static` when its
value equals it, and every other usage admits nothing (the three match arms
of `matches_segment`). -/
def usageAdmits : desc.Usage → String → Bool
  | desc.Usage.OneOf choices _, raw => choices.any fun c => c.value == raw
  | desc.Usage.Static v _, raw => v.value == raw
  | _, _ => false

/-- C3: with `check_qualifier = false`, `matches_segment` holds iff the tags
are equal.  With `check_qualifier = true` it holds iff the tags are equal,
the description's first data element (diving into the first composite when
present) exists and is a qualifier by name, and its usage admits the raw
segment's first data-element value in the sense of `usageAdmits` — so a
non-qualifier first element, a missing first element, or a
Text/Integer/Decimal usage never matches. -/
theorem c3_matches_segment (d : desc.Segment) (v : value.Segment) :
    (matches_segment d false v = true ↔ d.tag = v.tag.value) ∧
    (matches_segment d true v = true ↔
      d.tag = v.tag.value ∧
      ∃ q rv, firstDataElement d.elements = some q ∧ q.is_qualifier = true ∧
        firstValueDataElement v.elements = some rv ∧
        usageAdmits q.usage rv.value = true) := by
  constructor
  · simp [matches_segment]
  · by_cases ht : d.tag = v.tag.value
    · cases hq : firstDataElement d.elements with
      | none => simp [matches_segment, ht, hq]
      | some q =>
        cases hiq : q.is_qualifier with
        | false => simp [matches_segment, ht, hq, hiq]
        | true =>
          cases hv : firstValueDataElement v.elements with
          | none =>
            cases hu : q.usage <;>
              simp [matches_segment, ht, hq, hiq, hv, hu, usageAdmits]
          | some rv =>
            cases hu : q.usage <;>
              simp [matches_segment, ht, hq, hiq, hv, hu, usageAdmits]
    · simp [matches_segment, ht]

/-- C3 witness: a qualifier-discriminated description with tag `RFF` and a
`Static "ACE"` first data element matches the raw segment `RFF+ACE`, via the
right-to-left direction of the characterisation. -/
theorem c3_matches_segment_witness :
    matches_segment
      { counter := "0010", number := 1, tag := "RFF", st := desc.St.M,
        max_reps := 1, level := 1, name := "Referenz", comment := none,
        elements := [Either.Right
          { label := "1153", name := "Referenz, Qualifier", st := desc.St.M,
            format := desc.Format.Alphanumeric desc.Size.AtMost, length := 3,
            usage := desc.Usage.Static
              { value := "ACE", semantics := none, comment := none } none }] }
      true
      { tag := { start := ⟨1, 1⟩, stop := ⟨1, 4⟩, value := "RFF" },
        elements := [Either.Right
          { start := ⟨1, 5⟩, stop := ⟨1, 8⟩, value := "ACE" }] } = true :=
  (c3_matches_segment _ _).2.mpr
    ⟨rfl, _, _, rfl, by decide, rfl, by decide⟩

/-- The slot text contains an unescaped component separator before the slot
ends: scanning exactly as the lexer does, an escape consumes the following
character, a component separator (checked first, like the lexer's
continuation test) yields true, any other separator ends the slot with
false, and every other character is skipped. -/
def containsUnescapedCompSep (una : value.UNA) : List Char → Bool
  | [] => false
  | c :: cs =>
    if una.is_escape c then
      match cs with
      | [] => false
      | _ :: ds => containsUnescapedCompSep una ds
    else if c = una.component_sep then true
    else if una.is_separator c then false
    else containsUnescapedCompSep una cs

/-- Where `escapedText` stops determines the scan: the consumed prefix holds
no unescaped separator, so the slot contains an unescaped component
separator exactly when the remaining input starts with one. -/
theorem escapedText_compSep (una : value.UNA) :
    ∀ (input v rest : List Char), value.escapedText una input = some (v, rest) →
      containsUnescapedCompSep una input =
        (match rest with
         | c :: _ => decide (c = una.component_sep)
         | [] => false)
  | [], v, rest, h => by
      simp only [value.escapedText, Option.some.injEq, Prod.mk.injEq] at h
      obtain ⟨h1, h2⟩ := h
      subst h2
      rfl
  | c :: cs, v, rest, h => by
      unfold value.escapedText at h
      split at h
      · rename_i hesc
        split at h
        · exact absurd h (by simp)
        · rename_i d ds
          split at h
          · rename_i v2 rest2 hrec
            simp only [Option.some.injEq, Prod.mk.injEq] at h
            obtain ⟨h1, h2⟩ := h
            subst h2
            have := escapedText_compSep una ds v2 rest2 hrec
            unfold containsUnescapedCompSep
            rw [if_pos hesc]
            exact this
          · exact absurd h (by simp)
      · rename_i hesc
        split at h
        · rename_i hsep
          simp only [Option.some.injEq, Prod.mk.injEq] at h
          obtain ⟨h1, h2⟩ := h
          subst h2
          unfold containsUnescapedCompSep
          rw [if_neg hesc]
          by_cases hc : c = una.component_sep
          · simp [hc]
          · simp [hc, hsep]
        · rename_i hsep
          split at h
          · rename_i v2 rest2 hrec
            simp only [Option.some.injEq, Prod.mk.injEq] at h
            obtain ⟨h1, h2⟩ := h
            subst h2
            have := escapedText_compSep una cs v2 rest2 hrec
            unfold containsUnescapedCompSep
            rw [if_neg hesc]
            have hcc : ¬ c = una.component_sep := by
              intro he
              exact hsep (by simp [value.UNA.is_separator, he])
            rw [if_neg hcc, if_neg (by simpa using hsep)]
            exact this
          · exact absurd h (by simp)

/-- `DataElement::parser` succeeds exactly on an `escapedText` run, leaving
the same rest. -/
theorem dataElement_parser_elim (una : value.UNA) (pos : value.Position)
    (input : List Char) (de : value.DataElement) (p : value.Position) (r : List Char)
    (h : value.DataElement.parser una pos input = some (de, p, r)) :
    ∃ raw, value.escapedText una input = some (raw, r) := by
  unfold value.DataElement.parser at h
  cases he : value.escapedText una input with
  | none => rw [he] at h; exact absurd h (by simp)
  | some out =>
      obtain ⟨raw, rest⟩ := out
      rw [he] at h
      simp only [Option.some.injEq, Prod.mk.injEq] at h
      obtain ⟨h1, h2, h3⟩ := h
      subst h3
      exact ⟨raw, rfl⟩

/-- A `components` run with at least two entries starts with a data element
whose rest begins with the component separator. -/
theorem components_two_head (una : value.UNA) (pos : value.Position)
    (input : List Char) (des : List value.DataElement) (p : value.Position)
    (r : List Char) (h : value.components una pos input = some (des, p, r))
    (h2 : 2 ≤ des.length) :
    ∃ de pos1 cs,
      value.DataElement.parser una pos input = some (de, pos1, una.component_sep :: cs) := by
  cases hd : value.DataElement.parser una pos input with
  | none =>
      unfold value.components at h
      rw [hd] at h
      exact absurd h (by simp)
  | some out =>
      obtain ⟨de, pos1, rest1⟩ := out
      cases rest1 with
      | nil =>
          unfold value.components at h
          rw [hd] at h
          simp only [Option.some.injEq, Prod.mk.injEq] at h
          obtain ⟨h1, -, -⟩ := h
          rw [← h1] at h2
          simp at h2
      | cons c cs =>
          by_cases hc : c = una.component_sep
          · subst hc
            exact ⟨de, pos1, cs, rfl⟩
          · unfold value.components at h
            rw [hd] at h
            simp only [if_neg hc] at h
            simp only [Option.some.injEq, Prod.mk.injEq] at h
            obtain ⟨h1, -, -⟩ := h
            rw [← h1] at h2
            simp at h2

/-- `Composite::parser` succeeds exactly on a component run of length at
least two, which becomes the composite's element list. -/
theorem composite_parser_elim (una : value.UNA) (pos : value.Position)
    (input : List Char) (c : value.Composite) (p : value.Position) (r : List Char)
    (h : value.Composite.parser una pos input = some (c, p, r)) :
    value.components una pos input = some (c.elements, p, r) ∧ 2 ≤ c.elements.length := by
  unfold value.Composite.parser at h
  split at h
  · exact absurd h (by simp)
  · rename_i des p2 r2 heq
    split at h
    · rename_i hlen
      simp only [Option.some.injEq, Prod.mk.injEq] at h
      obtain ⟨h1, h2, h3⟩ := h
      subst h2
      subst h3
      subst h1
      exact ⟨heq, hlen⟩
    · exact absurd h (by simp)

/-- An element slot that lexes to a composite is a successful
`Composite::parser` run. -/
theorem elementSlot_left_elim (una : value.UNA) (pos : value.Position)
    (input : List Char) (c : value.Composite) (p : value.Position) (r : List Char)
    (h : value.elementSlot una pos input = some (Either.Left c, p, r)) :
    value.Composite.parser una pos input = some (c, p, r) := by
  unfold value.elementSlot at h
  cases hc : value.Composite.parser una pos input with
  | some out =>
      obtain ⟨c2, p2, r2⟩ := out
      rw [hc] at h
      simp only [Option.some.injEq, Prod.mk.injEq, Either.Left.injEq] at h
      obtain ⟨h1, h2, h3⟩ := h
      subst h1; subst h2; subst h3
      rfl
  | none =>
      rw [hc] at h
      cases hd : value.DataElement.parser una pos input with
      | none => rw [hd] at h; exact absurd h (by simp)
      | some out =>
          obtain ⟨d2, p2, r2⟩ := out
          rw [hd] at h
          simp at h
  
/-- An element slot that lexes to a bare data element is a failed composite
attempt followed by a successful `DataElement::parser` run. -/
theorem elementSlot_right_elim (una : value.UNA) (pos : value.Position)
    (input : List Char) (d : value.DataElement) (p : value.Position) (r : List Char)
    (h : value.elementSlot una pos input = some (Either.Right d, p, r)) :
    value.DataElement.parser una pos input = some (d, p, r) := by
  unfold value.elementSlot at h
  cases hc : value.Composite.parser una pos input with
  | some out =>
      obtain ⟨c2, p2, r2⟩ := out
      rw [hc] at h
      simp at h
  | none =>
      rw [hc] at h
      cases hd : value.DataElement.parser una pos input with
      | none => rw [hd] at h; exact absurd h (by simp)
      | some out =>
          obtain ⟨d2, p2, r2⟩ := out
          rw [hd] at h
          simp only [Option.some.injEq, Prod.mk.injEq, Either.Right.injEq] at h
          obtain ⟨h1, h2, h3⟩ := h
          subst h1; subst h2; subst h3
          rfl

/-- C7: an element slot lexes to a composite exactly when the slot text
contains an unescaped component separator — every composite then carries at
least two data elements — and to a bare data element otherwise (for a slot
of a parsed segment the rest continues with a non-component separator); the
slot `A::C` yields a composite of three values with the middle value empty. -/
theorem c7_composite_arity (una : value.UNA) (pos : value.Position) (input : List Char) :
    (∀ c p r, value.elementSlot una pos input = some (Either.Left c, p, r) →
      2 ≤ c.elements.length ∧ containsUnescapedCompSep una input = true) ∧
    (∀ d p r, value.elementSlot una pos input = some (Either.Right d, p, r) →
      (∀ ch cs, r = ch :: cs → ch ≠ una.component_sep) →
      containsUnescapedCompSep una input = false) ∧
    value.elementSlot value.UNA.default ⟨1, 1⟩ ('A' :: ':' :: ':' :: 'C' :: []) =
      some (Either.Left { elements := [
          { start := ⟨1, 1⟩, stop := ⟨1, 2⟩, value := "A" },
          { start := ⟨1, 3⟩, stop := ⟨1, 3⟩, value := "" },
          { start := ⟨1, 4⟩, stop := ⟨1, 5⟩, value := "C" }] }, ⟨1, 5⟩, []) := by
  refine ⟨?_, ?_, by
    simp +decide [value.elementSlot, value.Composite.parser, value.components,
      value.DataElement.parser, value.escapedText, value.UNA.default,
      value.UNA.is_escape, value.UNA.is_separator, value.Position.next]⟩
  · intro c p r h
    have hcp := elementSlot_left_elim una pos input c p r h
    obtain ⟨hcomp, hlen⟩ := composite_parser_elim una pos input c p r hcp
    refine ⟨hlen, ?_⟩
    obtain ⟨de, pos1, cs, hd⟩ := components_two_head una pos input _ p r hcomp hlen
    obtain ⟨raw, hesc⟩ := dataElement_parser_elim una pos input de pos1 _ hd
    rw [escapedText_compSep una input raw _ hesc]
    simp
  · intro d p r h hrest
    have hd := elementSlot_right_elim una pos input d p r h
    obtain ⟨raw, hesc⟩ := dataElement_parser_elim una pos input d p r hd
    rw [escapedText_compSep una input raw r hesc]
    cases r with
    | nil => rfl
    | cons ch cs =>
        have := hrest ch cs rfl
        simp [this]

/-- C7 witness: the first conjunct applied to the concrete slot `A::C`
yields the arity bound and the separator test. -/
theorem c7_composite_arity_witness :
    2 ≤ (value.Composite.mk [
        { start := ⟨1, 1⟩, stop := ⟨1, 2⟩, value := "A" },
        { start := ⟨1, 3⟩, stop := ⟨1, 3⟩, value := "" },
        { start := ⟨1, 4⟩, stop := ⟨1, 5⟩, value := "C" }]).elements.length ∧
      containsUnescapedCompSep value.UNA.default ('A' :: ':' :: ':' :: 'C' :: []) = true :=
  (c7_composite_arity value.UNA.default ⟨1, 1⟩ ('A' :: ':' :: ':' :: 'C' :: [])).1
    _ _ _ (c7_composite_arity value.UNA.default ⟨1, 1⟩
      ('A' :: ':' :: ':' :: 'C' :: [])).2.2

/-- Whether an `Except` is an error (`Result::is_err`). -/
def isError {e a : Type} : Except e a → Bool
  | Except.error _ => true
  | Except.ok _ => false

/-- One slot of the `match_segment` zip is individually invalid: the
description/value pair at this position contributes an error entry, per the
four both-present arms of `segmentLoop`. -/
def slotFails (position : Nat) :
    Either desc.Composite desc.DataElement → Either value.Composite value.DataElement →
      Bool
  | Either.Right _, Either.Left _ => true
  | Either.Left dc, Either.Right dv =>
    if !(dv.value == "" && dc.st == desc.St.N) then
      isError (match_composite position dc { elements := [dv] })
    else false
  | Either.Left dc, Either.Left cv => isError (match_composite position dc cv)
  | Either.Right dd, Either.Right dv => isError (match_data_element position dd dv)

/-- When description and value lists have equal length and every slot fails,
the zip loop sets no structural syntax error, produces no matches, and
collects exactly one error per slot. -/
theorem segmentLoop_all_fail :
    ∀ (ds : List (Either desc.Composite desc.DataElement))
      (vs : List (Either value.Composite value.DataElement)) (p : Nat),
      ds.length = vs.length →
      (∀ i (hi : i < ds.length) (hv : i < vs.length),
        slotFails (p + i) (ds.get ⟨i, hi⟩) (vs.get ⟨i, hv⟩) = true) →
      (segmentLoop p ds vs).1 = none ∧ (segmentLoop p ds vs).2.1 = [] ∧
        (segmentLoop p ds vs).2.2.length = ds.length
  | [], [], p, hlen, hall => by simp [segmentLoop]
  | [], v :: vs, p, hlen, hall => by simp at hlen
  | d :: ds, [], p, hlen, hall => by simp at hlen
  | d :: ds, v :: vs, p, hlen, hall => by
      have hlen2 : ds.length = vs.length := by simpa using hlen
      have hall2 : ∀ i (hi : i < ds.length) (hv : i < vs.length),
          slotFails (p + 1 + i) (ds.get ⟨i, hi⟩) (vs.get ⟨i, hv⟩) = true := by
        intro i hi hv
        have := hall (i + 1) (by simpa using Nat.succ_lt_succ hi)
          (by simpa using Nat.succ_lt_succ hv)
        simpa [Nat.add_assoc, Nat.add_comm 1 i] using this
      have ih := segmentLoop_all_fail ds vs (p + 1) hlen2 hall2
      have h0 := hall 0 (by simp) (by simp)
      simp only [List.get] at h0
      rcases hsl : segmentLoop (p + 1) ds vs with ⟨se, ms, es⟩
      rw [hsl] at ih
      obtain ⟨ih1, ih2, ih3⟩ := ih
      simp only at ih1 ih2 ih3
      subst ih1
      subst ih2
      cases d with
      | Right dd =>
        cases v with
        | Left cv =>
            simp only [segmentLoop, hsl]
            simpa using ih3
        | Right dv =>
            simp only [Nat.add_zero] at h0
            simp only [slotFails] at h0
            cases hmd : match_data_element p dd dv with
            | ok m => rw [hmd] at h0; simp [isError] at h0
            | error e =>
                simp only [segmentLoop, hsl, hmd]
                simpa using ih3
      | Left dc =>
        cases v with
        | Left cv =>
            simp only [Nat.add_zero] at h0
            simp only [slotFails] at h0
            cases hmc : match_composite p dc cv with
            | ok m => rw [hmc] at h0; simp [isError] at h0
            | error e =>
                simp only [segmentLoop, hsl, hmc]
                simpa using ih3
        | Right dv =>
            simp only [Nat.add_zero] at h0
            simp only [slotFails] at h0
            cases hcond : (!(dv.value == "" && dc.st == desc.St.N)) with
            | false => rw [hcond] at h0; simp at h0
            | true =>
                rw [hcond] at h0
                simp only [if_true] at h0
                cases hmc : match_composite p dc { elements := [dv] } with
                | ok m => rw [hmc] at h0; simp [isError] at h0
                | error e =>
                    simp only [segmentLoop, hsl, hcond, hmc]
                    simpa using ih3

/-- C6: `match_segment` fails exactly when the zip loop accumulated a
non-empty error list or set the structural syntax error; and against a
description and raw segment with the same positive number k of element
slots, each individually invalid, it fails with a `SegmentError` holding
exactly k error entries (one per slot) and no structural error. -/
theorem c6_error_accumulation (p : Nat) (d : desc.Segment) (v : value.Segment) (k : Nat) :
    (isError (match_segment p d v) =
      (!(segmentLoop 0 d.elements v.elements).2.2.isEmpty ||
        (segmentLoop 0 d.elements v.elements).1.isSome)) ∧
    (d.elements.length = k → v.elements.length = k → 0 < k →
      (∀ i (hi : i < d.elements.length) (hv : i < v.elements.length),
        slotFails i (d.elements.get ⟨i, hi⟩) (v.elements.get ⟨i, hv⟩) = true) →
      ∃ e, match_segment p d v = Except.error e ∧ e.errors.length = k ∧
        e.syntax_error = none) := by
  constructor
  · rcases hsl : segmentLoop 0 d.elements v.elements with ⟨se, ms, es⟩
    cases hcond : (!es.isEmpty || se.isSome) with
    | false => simp [match_segment, hsl, hcond, isError]
    | true => simp [match_segment, hsl, hcond, isError]
  · intro hd hv hk hall
    have hall0 : ∀ i (hi : i < d.elements.length) (hv2 : i < v.elements.length),
        slotFails (0 + i) (d.elements.get ⟨i, hi⟩) (v.elements.get ⟨i, hv2⟩) = true := by
      intro i hi hv2
      simpa using hall i hi hv2
    have h := segmentLoop_all_fail d.elements v.elements 0 (by rw [hd, hv]) hall0
    rcases hsl : segmentLoop 0 d.elements v.elements with ⟨se, ms, es⟩
    rw [hsl] at h
    obtain ⟨h1, h2, h3⟩ := h
    simp only at h1 h2 h3
    subst h1
    subst h2
    have hne : es.isEmpty = false := by
      cases hes : es with
      | nil =>
          exfalso
          rw [hes] at h3
          rw [hd] at h3
          simp at h3
          omega
      | cons a as => simp
    refine ⟨{ pos := p, syntax_error := none, errors := es }, ?_, ?_, rfl⟩
    · simp [match_segment, hsl, hne]
    · rw [h3, hd]

/-- C6 witness: a description with two mandatory data-element slots against
a raw segment with two empty values fails with exactly two error entries. -/
theorem c6_error_accumulation_witness :
    ∃ e, match_segment 0
      { counter := "0020", number := 2, tag := "BGM", st := desc.St.M,
        max_reps := 1, level := 1, name := "Beginn", comment := none,
        elements := [
          Either.Right { label := "1001", name := "Dokumentenname", st := desc.St.M,
                         format := desc.Format.Alphanumeric desc.Size.AtMost, length := 3,
                         usage := desc.Usage.Text none },
          Either.Right { label := "1004", name := "Dokumentennummer", st := desc.St.R,
                         format := desc.Format.Alphanumeric desc.Size.AtMost, length := 35,
                         usage := desc.Usage.Text none }] }
      { tag := { start := ⟨1, 1⟩, stop := ⟨1, 4⟩, value := "BGM" },
        elements := [
          Either.Right { start := ⟨1, 5⟩, stop := ⟨1, 5⟩, value := "" },
          Either.Right { start := ⟨1, 6⟩, stop := ⟨1, 6⟩, value := "" }] }
      = Except.error e ∧ e.errors.length = 2 ∧ e.syntax_error = none :=
  (c6_error_accumulation 0 _ _ 2).2 rfl rfl (by decide) (by decide)

/-- A `matching` walk only reports an error when the accumulated error list
is non-empty. -/
theorem matching_error_nonempty (fuel pos : Nat)
    (descs : List (Either desc.Segmentgroup desc.Segment)) (stack : List value.Segment)
    (idx : Nat) (es : List SegmentError) (stack1 : List value.Segment)
    (h : matching fuel pos descs stack = some (idx, Except.error es, stack1)) :
    es ≠ [] := by
  cases fuel with
  | zero => simp [matching] at h
  | succ f =>
      unfold matching at h
      cases ha : matchingAux f pos (groupRuns descs) stack with
      | none => rw [ha] at h; exact absurd h (by simp)
      | some out =>
          obtain ⟨i, ms, es2, st⟩ := out
          rw [ha] at h
          cases hes : es2.isEmpty with
          | true => simp [hes] at h
          | false =>
              simp only [hes, Bool.false_eq_true, if_false, Option.some.injEq,
                Prod.mk.injEq, Except.error.injEq] at h
              obtain ⟨-, h2, -⟩ := h
              subst h2
              intro hnil
              rw [hnil] at hes
              simp at hes

/-- C10: every error value `match_interchange` returns has the fixed
flattened shape — interchange position 0, no service-segment error, exactly
one `MessageError`, itself at position 0 with no service-segment error,
carrying as its flat list precisely the (non-empty) segment-error list the
walk accumulated (nested group errors were already spliced into that list by
the walk). -/
theorem c10_error_shape (fuel : Nat) (d : desc.Interchange) (v : value.Interchange)
    (e : InterchangeError)
    (h : match_interchange fuel d v = some (Except.error e)) :
    e.pos = 0 ∧ e.service_segment_error = none ∧
    ∃ es, e.message_errors =
        [{ pos := 0, service_segment_error := none, segment_errors := es }] ∧
      es ≠ [] ∧
      ∃ idx stack1, matching fuel 0 (flattenDescs d) v.segments =
        some (idx, Except.error es, stack1) := by
  unfold match_interchange at h
  cases hm : matching fuel 0 (flattenDescs d) v.segments with
  | none => rw [hm] at h; exact absurd h (by simp)
  | some out =>
      obtain ⟨idx, res, stack1⟩ := out
      rw [hm] at h
      cases res with
      | ok result => simp at h
      | error error =>
          simp only [Option.some.injEq, Except.error.injEq] at h
          subst h
          exact ⟨rfl, rfl, error, rfl,
            matching_error_nonempty fuel 0 (flattenDescs d) v.segments idx error stack1 hm,
            idx, stack1, rfl⟩

/-- A one-segment description whose UNB requires one data element; used to
exercise the matcher on a raw interchange that omits the element. -/
def exDescInterchange : desc.Interchange :=
  { unb := { counter := "0001", number := 1, tag := "UNB", st := desc.St.M,
             max_reps := 1, level := 0, name := "unb", comment := none,
             elements := [Either.Right
               { label := "0010", name := "x", st := desc.St.M,
                 format := desc.Format.Alphanumeric desc.Size.AtMost,
                 length := 3, usage := desc.Usage.Text none }] }
    message := { unh := { counter := "0002", number := 2, tag := "UNH",
                          st := desc.St.M, max_reps := 1, level := 0,
                          name := "unh", comment := none, elements := [] }
                 segments := []
                 unt := { counter := "0003", number := 3, tag := "UNT",
                          st := desc.St.M, max_reps := 1, level := 0,
                          name := "unt", comment := none, elements := [] } }
    unz := { counter := "0004", number := 4, tag := "UNZ", st := desc.St.M,
             max_reps := 1, level := 0, name := "unz", comment := none,
             elements := [] } }

/-- A raw interchange holding one bare `UNB` segment without elements. -/
def exRawInterchange : value.Interchange :=
  { una := value.UNA.default
    segments := [{ tag := { start := ⟨1, 1⟩, stop := ⟨1, 4⟩, value := "UNB" },
                   elements := [] }] }

/-- The error aggregate the matcher produces for that pair. -/
def exInterchangeError : InterchangeError :=
  { pos := 0, service_segment_error := none,
    message_errors := [{ pos := 0, service_segment_error := none, segment_errors := [{ pos := 0, syntax_error := none, errors := [Either.Right { pos := 0, syntax_error := SyntaxError.missing }] }] }] }

/-- C10 witness: the shape characterisation at the concrete failing
interchange above. -/
theorem c10_error_shape_witness :
    exInterchangeError.pos = 0 ∧ exInterchangeError.service_segment_error = none ∧
    ∃ es, exInterchangeError.message_errors =
        [{ pos := 0, service_segment_error := none, segment_errors := es }] ∧
      es ≠ [] ∧
      ∃ idx stack1,
        matching 20 0 (flattenDescs exDescInterchange) exRawInterchange.segments =
          some (idx, Except.error es, stack1) :=
  c10_error_shape 20 exDescInterchange exRawInterchange exInterchangeError rfl

/-- Unfolding `elementsList` when the slot ends before a non-element
separator. -/
theorem elementsList_eq_stop (una : value.UNA) (pos : value.Position)
    (input : List Char) (e : Either value.Composite value.DataElement)
    (pos1 : value.Position) (c : Char) (cs : List Char)
    (h : value.elementSlot una pos input = some (e, pos1, c :: cs))
    (hc : ¬ c = una.element_sep) :
    value.elementsList una pos input = some ([e], pos1, c :: cs) := by
  rw [value.elementsList.eq_def]
  split
  · rename_i heq; rw [h] at heq; cases heq
  · rename_i e2 pos2 heq
    rw [h] at heq
    cases heq
  · rename_i e2 pos2 c2 cs2 heq
    rw [h] at heq
    injection heq with heq2
    injection heq2 with he hrest
    injection hrest with hp hr
    injection hr with hc2 hcs2
    subst he; subst hp; subst hc2; subst hcs2
    rw [if_neg hc]

/-- Unfolding `elementsList` when the slot is followed by the element
separator: the next slots are consed on. -/
theorem elementsList_eq_cont (una : value.UNA) (pos : value.Position)
    (input : List Char) (e : Either value.Composite value.DataElement)
    (pos1 : value.Position) (c : Char) (cs : List Char)
    (h : value.elementSlot una pos input = some (e, pos1, c :: cs))
    (hc : c = una.element_sep) :
    value.elementsList una pos input =
      (value.elementsList una (pos1.next c) cs).map
        (fun out => (e :: out.1, out.2.1, out.2.2)) := by
  rw [value.elementsList.eq_def]
  split
  · rename_i heq; rw [h] at heq; cases heq
  · rename_i e2 pos2 heq
    rw [h] at heq
    cases heq
  · rename_i e2 pos2 c2 cs2 heq
    rw [h] at heq
    injection heq with heq2
    injection heq2 with he hrest
    injection hrest with hp hr
    injection hr with hc2 hcs2
    subst he; subst hp; subst hc2; subst hcs2
    rw [if_pos hc]
    split
    · rename_i heq2
      rw [heq2]
      rfl
    · rename_i es2 pos3 rest3 heq2
      rw [heq2]
      rfl

/-- `segmentsList` on the empty input. -/
theorem segmentsList_eq_nil (una : value.UNA) (pos : value.Position) :
    value.segmentsList una pos [] = some [] := by
  rw [value.segmentsList.eq_def]

/-- Unfolding `segmentsList` when the first segment parses. -/
theorem segmentsList_eq_cons (una : value.UNA) (pos : value.Position)
    (c : Char) (cs : List Char) (s : value.Segment) (pos1 : value.Position)
    (rest : List Char)
    (h : value.Segment.parser una pos (c :: cs) = some (s, pos1, rest)) :
    value.segmentsList una pos (c :: cs) =
      (value.segmentsList una pos1 rest).map (fun ss => s :: ss) := by
  rw [value.segmentsList.eq_def]
  split
  · rename_i heq
    exact absurd heq (by simp)
  · split
    · rename_i heq
      rw [h] at heq
      cases heq
    · rename_i s2 pos2 rest2 heq
      rw [h] at heq
      simp only [Option.some.injEq, Prod.mk.injEq] at heq
      obtain ⟨hs, hp, hr⟩ := heq
      subst hs; subst hp; subst hr
      split
      · rename_i heq2
        rw [heq2]
        rfl
      · rename_i ss heq2
        rw [heq2]
        rfl

/-- The concrete input `A+B'` parses to one segment with tag `A` and a
single bare data element `B`. -/
theorem parse_one_segment : parse ('A' :: '+' :: 'B' :: '\'' :: []) = some
    { una := value.UNA.default,
      segments := [{ tag := { start := ⟨1, 1⟩, stop := ⟨1, 2⟩, value := "A" },
                     elements := [Either.Right
                       { start := ⟨1, 3⟩, stop := ⟨1, 4⟩, value := "B" }] }] } := by
  have h1 : value.elementSlot value.UNA.default ⟨1, 3⟩ ('B' :: '\'' :: []) =
      some (Either.Right { start := ⟨1, 3⟩, stop := ⟨1, 4⟩, value := "B" }, ⟨1, 4⟩,
        ['\'']) := by
    simp +decide [value.elementSlot, value.Composite.parser, value.components,
      value.DataElement.parser, value.escapedText, value.UNA.default,
      value.UNA.is_escape, value.UNA.is_separator, value.Position.next]
  have h2 := elementsList_eq_stop value.UNA.default ⟨1, 3⟩ ('B' :: '\'' :: []) _ _ _ _ h1
    (by decide)
  have h3 : value.Segment.parser value.UNA.default ⟨1, 1⟩
      ('A' :: '+' :: 'B' :: '\'' :: []) =
      some ({ tag := { start := ⟨1, 1⟩, stop := ⟨1, 2⟩, value := "A" },
              elements := [Either.Right
                { start := ⟨1, 3⟩, stop := ⟨1, 4⟩, value := "B" }] }, ⟨1, 5⟩, []) := by
    simp +decide [value.Segment.parser, value.DataElement.parser, value.escapedText,
      h2, value.skipSpaces, value.UNA.is_escape, value.UNA.is_separator,
      value.Position.next]
  have h4 := segmentsList_eq_cons value.UNA.default ⟨1, 1⟩ 'A'
    ('+' :: 'B' :: '\'' :: []) _ _ _ h3
  have h5 : value.segmentsList value.UNA.default ⟨1, 1⟩
      ('A' :: '+' :: 'B' :: '\'' :: []) =
      some [{ tag := { start := ⟨1, 1⟩, stop := ⟨1, 2⟩, value := "A" },
              elements := [Either.Right
                { start := ⟨1, 3⟩, stop := ⟨1, 4⟩, value := "B" }] }] := by
    rw [h4, segmentsList_eq_nil]
    rfl
  show (match value.segmentsList value.UNA.default ⟨1, 1⟩
      ('A' :: '+' :: 'B' :: '\'' :: []) with
    | none => none
    | some segments =>
      some { una := value.UNA.default, segments := segments } : Option value.Interchange)
    = some { una := value.UNA.default,
             segments := [{ tag := { start := ⟨1, 1⟩, stop := ⟨1, 2⟩, value := "A" },
                            elements := [Either.Right
                              { start := ⟨1, 3⟩, stop := ⟨1, 4⟩, value := "B" }] }] }
  rw [h5]

/-- C9 counterexample: `decode` with an empty description vector does NOT
panic on every input — on the unparsable input `A` it returns the parse
error before `known[0]` is ever indexed, so the claim's universal
quantification over inputs fails. -/
theorem c9_decode_counterexample :
    decode 1 [] ['A'] = some DecodeResult.parseError ∧
      decode 1 [] ['A'] ≠ some DecodeResult.panic := by
  have h1 : value.segmentsList value.UNA.default ⟨1, 1⟩ ['A'] = none := by
    unfold value.segmentsList
    simp +decide [value.Segment.parser, value.DataElement.parser, value.escapedText,
      value.UNA.default, value.UNA.is_escape, value.UNA.is_separator,
      value.Position.next]
  have hp : parse ['A'] = none := by
    simp [parse, value.Interchange.parser, value.UNA.parser, h1]
  constructor
  · simp [decode, hp]
  · simp [decode, hp]

/-- C9 (amended): `decode` is not total in its descriptions argument — for
every input the lexer accepts, decoding against an empty description vector
reaches the unguarded `known[0]` and panics, so the documented contract of
returning a match tree or an error aggregate holds only under the unstated
precondition that the descriptions list is non-empty.  (Inputs the lexer
rejects return the parse error first — see the counterexample.) -/
theorem c9_decode_empty_panics (fuel : Nat) (input : List Char)
    (i : value.Interchange) (h : parse input = some i) :
    decode fuel [] input = some DecodeResult.panic := by
  unfold decode
  rw [h]

/-- C9 witness: on the parseable input `A+B'`, `decode` with no known
descriptions panics. -/
theorem c9_decode_empty_panics_witness :
    decode 1 [] ('A' :: '+' :: 'B' :: '\'' :: []) = some DecodeResult.panic :=
  c9_decode_empty_panics 1 ('A' :: '+' :: 'B' :: '\'' :: []) _ parse_one_segment

/-- The body of a segment group is smaller than the group node itself. -/
theorem sizeOf_segments_lt (g : desc.Segmentgroup) : sizeOf g.segments < sizeOf g := by
  cases g with
  | mk counter label st max_reps level name comment segments =>
      simp [desc.Segmentgroup.segments]

mutual

/-- The raw segment `w` matches this description element under neither
qualifier mode and, for a group, none of the group's nested elements
either. -/
def unmatchedBy (w : value.Segment) : Either desc.Segmentgroup desc.Segment → Bool
  | Either.Left g =>
    !matches_segmentgroup g true w && !matches_segmentgroup g false w &&
      unmatchedByAll w g.segments
  | Either.Right s => !matches_segment s true w && !matches_segment s false w
termination_by e => sizeOf e
decreasing_by
  have h := sizeOf_segments_lt v
  simp only [Either.Left.sizeOf_spec]
  omega

/-- `unmatchedBy` over a whole description list. -/
def unmatchedByAll (w : value.Segment) :
    List (Either desc.Segmentgroup desc.Segment) → Bool
  | [] => true
  | e :: es => unmatchedBy w e && unmatchedByAll w es
termination_by l => sizeOf l
decreasing_by
  · simp only [List.cons.sizeOf_spec]
    omega
  · simp only [List.cons.sizeOf_spec]
    omega

end

/-- `unmatchedByAll` is the conjunction over the list's elements. -/
theorem unmatchedByAll_forall (w : value.Segment) :
    ∀ (l : List (Either desc.Segmentgroup desc.Segment)),
      unmatchedByAll w l = true ↔ ∀ e ∈ l, unmatchedBy w e = true
  | [] => by unfold unmatchedByAll; simp
  | e :: es => by
      unfold unmatchedByAll
      simp only [Bool.and_eq_true, List.mem_cons, unmatchedByAll_forall w es]
      constructor
      · rintro ⟨h1, h2⟩ x hx
        rcases hx with hx | hx
        · subst hx; exact h1
        · exact h2 x hx
      · intro h
        exact ⟨h e (Or.inl rfl), fun x hx => h x (Or.inr hx)⟩

/-- An unmatched description element matches under neither qualifier mode. -/
theorem unmatchedBy_matchesDesc (w : value.Segment)
    (e : Either desc.Segmentgroup desc.Segment) (q : Bool)
    (h : unmatchedBy w e = true) : matchesDesc e q w = false := by
  cases e with
  | Left g =>
      unfold unmatchedBy at h
      simp only [Bool.and_eq_true, Bool.not_eq_true'] at h
      cases q
      · exact h.1.2
      · exact h.1.1
  | Right s =>
      unfold unmatchedBy at h
      simp only [Bool.and_eq_true, Bool.not_eq_true'] at h
      cases q
      · exact h.2
      · exact h.1

/-- A stack value matching nothing in the run finds no split. -/
theorem findMatchSplit_eq_none (q : Bool) (w : value.Segment) :
    ∀ (nds : List (Either desc.Segmentgroup desc.Segment)),
      (∀ e ∈ nds, matchesDesc e q w = false) → findMatchSplit q w nds = none
  | [], h => rfl
  | d :: ds, h => by
      unfold findMatchSplit
      rw [h d (by simp), findMatchSplit_eq_none q w ds fun e he => h e (by simp [he])]
      simp

/-- A successful split decomposes the run. -/
theorem findMatchSplit_eq_some (q : Bool) (w : value.Segment) :
    ∀ (nds pre : List (Either desc.Segmentgroup desc.Segment))
      (m : Either desc.Segmentgroup desc.Segment)
      (post : List (Either desc.Segmentgroup desc.Segment)),
      findMatchSplit q w nds = some (pre, m, post) → nds = pre ++ m :: post
  | [], pre, m, post, h => by simp [findMatchSplit] at h
  | d :: ds, pre, m, post, h => by
      unfold findMatchSplit at h
      split at h
      · simp only [Option.some.injEq, Prod.mk.injEq] at h
        obtain ⟨h1, h2, h3⟩ := h
        subst h1; subst h2; subst h3
        rfl
      · cases hrec : findMatchSplit q w ds with
        | none => rw [hrec] at h; cases h
        | some out =>
            obtain ⟨pre2, m2, post2⟩ := out
            rw [hrec] at h
            simp only [Option.some.injEq, Prod.mk.injEq] at h
            obtain ⟨h1, h2, h3⟩ := h
            subst h1; subst h2; subst h3
            have := findMatchSplit_eq_some q w ds pre2 m2 post2 hrec
            rw [this]
            rfl

/-- Every element of every counter run comes from the grouped list. -/
theorem groupRunsAux_mem (key : String)
    (acc l : List (Either desc.Segmentgroup desc.Segment)) :
    ∀ run ∈ groupRunsAux key acc l, ∀ e ∈ run, e ∈ acc ∨ e ∈ l := by
  induction l generalizing key acc with
  | nil =>
      intro run hrun e he
      simp only [groupRunsAux, List.mem_singleton] at hrun
      subst hrun
      exact Or.inl (by simpa using he)
  | cons d ds ih =>
      intro run hrun e he
      unfold groupRunsAux at hrun
      split at hrun
      · rcases ih key (d :: acc) run hrun e he with h | h
        · rcases List.mem_cons.mp h with h2 | h2
          · exact Or.inr (by simp [h2])
          · exact Or.inl h2
        · exact Or.inr (by simp [h])
      · rcases List.mem_cons.mp hrun with h2 | h2
        · subst h2
          exact Or.inl (by simpa using he)
        · rcases ih (get_counter d) [d] run h2 e he with h | h
          · simp only [List.mem_singleton] at h
            exact Or.inr (by simp [h])
          · exact Or.inr (by simp [h])

/-- Every element of every counter run of a description list belongs to the
list. -/
theorem groupRuns_mem (descs : List (Either desc.Segmentgroup desc.Segment)) :
    ∀ run ∈ groupRuns descs, ∀ e ∈ run, e ∈ descs := by
  cases descs with
  | nil => intro run hrun; simp [groupRuns] at hrun
  | cons d ds =>
      intro run hrun e he
      rcases groupRunsAux_mem (get_counter d) [d] ds run hrun e he with h | h
      · simp only [List.mem_singleton] at h
        simp [h]
      · simp [h]

/-- Restriction of `unmatchedByAll` to a sublist. -/
theorem unmatchedByAll_sublist (w : value.Segment)
    (l1 l2 : List (Either desc.Segmentgroup desc.Segment))
    (hsub : ∀ e ∈ l1, e ∈ l2) (h : unmatchedByAll w l2 = true) :
    unmatchedByAll w l1 = true := by
  rw [unmatchedByAll_forall] at h ⊢
  exact fun e he => h e (hsub e he)

/-- A group unmatched by `w` has its whole body unmatched by `w`. -/
theorem unmatchedBy_group (w : value.Segment) (g : desc.Segmentgroup)
    (h : unmatchedBy w (Either.Left g) = true) :
    unmatchedByAll w g.segments = true := by
  unfold unmatchedBy at h
  simp only [Bool.and_eq_true] at h
  exact h.2

/-- The joint stack-extension property of the walk: appending raw segments
that match nothing in the descriptions to the bottom of the stack changes
neither the matches nor the errors of `runLoop`, `matchingAux` and
`matching` — the appended segments merely stay in the leftover stack. -/
theorem walk_extra : ∀ (fuel : Nat),
    (∀ q idx nds stack extra,
      (∀ w ∈ extra, unmatchedByAll w nds = true) →
      runLoop fuel q idx nds (stack ++ extra) =
        (runLoop fuel q idx nds stack).map
          (fun out => (out.1, out.2.1, out.2.2.1, out.2.2.2 ++ extra))) ∧
    (∀ idx runs stack extra,
      (∀ w ∈ extra, ∀ run ∈ runs, unmatchedByAll w run = true) →
      matchingAux fuel idx runs (stack ++ extra) =
        (matchingAux fuel idx runs stack).map
          (fun out => (out.1, out.2.1, out.2.2.1, out.2.2.2 ++ extra))) ∧
    (∀ pos descs stack extra,
      (∀ w ∈ extra, unmatchedByAll w descs = true) →
      matching fuel pos descs (stack ++ extra) =
        (matching fuel pos descs stack).map
          (fun out => (out.1, out.2.1, out.2.2 ++ extra))) := by
  intro fuel
  induction fuel with
  | zero => exact ⟨fun _ _ _ _ _ _ => rfl, fun _ _ _ _ _ => rfl, fun _ _ _ _ _ => rfl⟩
  | succ f ih =>
    obtain ⟨ihRun, ihAux, ihMatch⟩ := ih
    refine ⟨?_, ?_, ?_⟩
    · intro q idx nds stack extra hext
      cases stack with
      | nil =>
        cases extra with
        | nil => simp [runLoop]
        | cons w ws =>
          have hfind : findMatchSplit q w nds = none :=
            findMatchSplit_eq_none q w nds (fun e he =>
              unmatchedBy_matchesDesc w e q
                ((unmatchedByAll_forall w nds).mp (hext w (by simp)) e he))
          simp [runLoop, hfind]
      | cons v rest =>
        simp only [List.cons_append]
        cases hfind : findMatchSplit q v nds with
        | none => simp [runLoop, hfind]
        | some out =>
          obtain ⟨pre, m, post⟩ := out
          have hnds := findMatchSplit_eq_some q v nds pre m post hfind
          cases m with
          | Right d =>
            have hkept : ∀ w ∈ extra, unmatchedByAll w
                (if (d.max_reps == 1) = true then pre ++ post
                 else pre ++ Either.Right d :: post) = true := by
              intro w hw
              apply unmatchedByAll_sublist w _ nds ?_ (hext w hw)
              intro e he
              rw [hnds]
              by_cases hc : (d.max_reps == 1) = true
              · rw [if_pos hc] at he
                simp only [List.mem_append, List.mem_cons] at he ⊢
                tauto
              · rw [if_neg hc] at he
                simp only [List.mem_append, List.mem_cons] at he ⊢
                tauto
            simp only [runLoop, hfind]
            rw [ihRun q (idx + 1) _ rest extra hkept]
            rcases hr : runLoop f q (idx + 1)
                (if (d.max_reps == 1) = true then pre ++ post
                 else pre ++ Either.Right d :: post) rest with _ | ⟨i, ms, es, st⟩
            · rfl
            · cases hms : match_segment idx d v with
              | ok mm => simp [hms]
              | error e => simp [hms]
          | Left g =>
            have hgs : ∀ w ∈ extra, unmatchedByAll w g.segments = true := by
              intro w hw
              refine unmatchedBy_group w g ?_
              refine (unmatchedByAll_forall w nds).mp (hext w hw) (Either.Left g) ?_
              rw [hnds]
              simp
            have hnds2 : ∀ w ∈ extra,
                unmatchedByAll w (pre ++ Either.Left g :: post) = true := by
              intro w hw
              rw [← hnds]
              exact hext w hw
            simp only [runLoop, hfind]
            rw [ihMatch idx g.segments rest extra hgs]
            rcases hm : matching f idx g.segments rest with _ | ⟨next, result, stack1⟩
            · rfl
            · simp only [Option.map_some']
              rw [ihRun q (idx + next) (pre ++ Either.Left g :: post) stack1 extra hnds2]
              rcases hr : runLoop f q (idx + next) (pre ++ Either.Left g :: post) stack1
                with _ | ⟨i, ms, es, st⟩
              · cases result <;> rfl
              · cases result <;> rfl
    · intro idx runs stack extra hext
      cases runs with
      | nil => simp [matchingAux]
      | cons run runs2 =>
        simp only [matchingAux]
        rw [ihRun (decide (1 < run.length)) idx run stack extra
          (fun w hw => hext w hw run (by simp))]
        rcases hr : runLoop f (decide (1 < run.length)) idx run stack
          with _ | ⟨i1, ms1, es1, st1⟩
        · rfl
        · simp only [Option.map_some']
          rw [ihAux i1 runs2 st1 extra
            (fun w hw run2 hrun2 => hext w hw run2 (by simp [hrun2]))]
          rcases ha : matchingAux f i1 runs2 st1 with _ | ⟨i2, ms2, es2, st2⟩
          · rfl
          · rfl
    · intro pos descs stack extra hext
      simp only [matching]
      rw [ihAux pos (groupRuns descs) stack extra
        (fun w hw run hrun => unmatchedByAll_sublist w run descs
          (groupRuns_mem descs run hrun) (hext w hw))]
      rcases ha : matchingAux f pos (groupRuns descs) stack with _ | ⟨i, ms, es, st⟩
      · rfl
      · rfl

/-- C8: a raw segment that matches no description of the current counter run
is pushed back onto the stack with no error recorded at that point; raw
segments still unconsumed when the walk completes produce no error at all;
and `matching` / `match_interchange` depend only on the errors accumulated
for segments that matched some run, never on leftover stack contents —
appending raw segments that match nothing anywhere in the flattened
description changes neither matches nor errors of the walk and leaves the
`match_interchange` result unchanged. -/
theorem c8_leftover_stack (fuel pos : Nat) (d : desc.Interchange)
    (stack extra : List value.Segment)
    (hext : ∀ w ∈ extra, unmatchedByAll w (flattenDescs d) = true) :
    (matching fuel pos (flattenDescs d) (stack ++ extra) =
      (matching fuel pos (flattenDescs d) stack).map
        (fun out => (out.1, out.2.1, out.2.2 ++ extra))) ∧
    (∀ una, match_interchange fuel d { una := una, segments := stack ++ extra } =
      match_interchange fuel d { una := una, segments := stack }) ∧
    (∀ q idx nds (v : value.Segment) rest,
      (∀ e ∈ nds, matchesDesc e q v = false) →
      runLoop (fuel + 1) q idx nds (v :: rest) = some (idx, [], [], v :: rest)) := by
  refine ⟨(walk_extra fuel).2.2 pos (flattenDescs d) stack extra hext, ?_, ?_⟩
  · intro una
    unfold match_interchange
    rw [show ({ una := una, segments := stack ++ extra } : value.Interchange).segments
        = stack ++ extra from rfl]
    rw [show ({ una := una, segments := stack } : value.Interchange).segments
        = stack from rfl]
    rw [(walk_extra fuel).2.2 0 (flattenDescs d) stack extra hext]
    rcases hm : matching fuel 0 (flattenDescs d) stack with _ | ⟨i, res, st⟩
    · rfl
    · cases res <;> rfl
  · intro q idx nds v rest hno
    have hfind := findMatchSplit_eq_none q v nds hno
    simp [runLoop, hfind]

/-- A raw segment with tag `XXX`, matched by nothing in the example
description. -/
def exForeignSegment : value.Segment :=
  { tag := { start := ⟨9, 1⟩, stop := ⟨9, 4⟩, value := "XXX" }, elements := [] }

/-- C8 witness: appending the foreign segment below an empty stack leaves
the walk of the example description unchanged up to the leftover stack, and
an unmatched top-of-stack is pushed back without error. -/
theorem c8_leftover_stack_witness :
    (matching 5 0 (flattenDescs exDescInterchange) ([] ++ [exForeignSegment]) =
      (matching 5 0 (flattenDescs exDescInterchange) []).map
        (fun out => (out.1, out.2.1, out.2.2 ++ [exForeignSegment]))) ∧
    (∀ una, match_interchange 5 exDescInterchange
        { una := una, segments := [] ++ [exForeignSegment] } =
      match_interchange 5 exDescInterchange { una := una, segments := [] }) ∧
    (∀ q idx nds (v : value.Segment) rest,
      (∀ e ∈ nds, matchesDesc e q v = false) →
      runLoop (5 + 1) q idx nds (v :: rest) = some (idx, [], [], v :: rest)) :=
  c8_leftover_stack 5 0 exDescInterchange [] [exForeignSegment] (by
    intro w hw
    simp only [List.mem_singleton] at hw
    subst hw
    rw [unmatchedByAll_forall]
    intro e he
    have hfd : flattenDescs exDescInterchange =
        [Either.Right exDescInterchange.unb,
         Either.Right exDescInterchange.message.unh,
         Either.Right exDescInterchange.message.unt,
         Either.Right exDescInterchange.unz] := rfl
    rw [hfd] at he
    simp only [List.mem_cons, List.not_mem_nil, or_false] at he
    rcases he with he | he | he | he <;> (subst he; unfold unmatchedBy; decide))

end Edifact
